import Mathlib

/-!
Shallow embedding of `src/server.js` (artist-voting backend): data model,
vote validation, revote throttle, vote submission handler, tally engine,
and admin session operations, together with theorems settling the claims.

JS conventions modelled explicitly:
* a submitted answer is either a string or an array of strings
  (`Answer.str` / `Answer.arr`); an absent key is `Option.none`;
* JS truthiness: `undefined`/`""` are falsy, every array is truthy;
* `Array.prototype.includes` uses strict equality, so an array never
  equals a string option name;
* JS objects keep insertion order for non-index string keys, but
  enumerate array-index-like keys (canonical numerals below 2^32 - 1)
  first, in ascending numeric order (`jsEntries`);
* `Array.prototype.sort` is stable (ES2019); `sortLe` below is a stable
  insertion sort, which yields the same list;
* property access on `undefined` (e.g. `undefined.trim()`,
  `undefined.push`) throws; the tally is therefore `Except`-valued;
* times are in milliseconds (`Int`), as returned by `Date.now()`.
-/

namespace AV

/-- Section types: the `enum` of `sectionSchema` (server.js line 36). -/
inductive SectionTy
  | singleSelect
  | multiSelect
  | textInput
deriving DecidableEq, Repr

/-- An option of a select-type section (`optionSchema`, lines 25-28). -/
structure Opt where
  name : String
  imageUrl : Option String
deriving DecidableEq, Repr

/-- A section of a voting session (`sectionSchema`, lines 30-42).
`minSelections`/`maxSelections` default to 1 in the schema; here they are
plain fields. -/
structure Section where
  id : String
  label : String
  ty : SectionTy
  required : Bool
  options : List Opt
  minSelections : Nat
  maxSelections : Nat
deriving DecidableEq, Repr

/-- A submitted (or stored) answer for one section: JS value that is
either a string or an array of strings. -/
inductive Answer
  | str (s : String)
  | arr (l : List String)
deriving DecidableEq, Repr

/-- The votes object: mapping from section id to answer, insertion order. -/
abbrev VotesMap := List (String × Answer)

/-- JS truthiness of a possibly-absent answer: `undefined` and `""` are
falsy; arrays (even empty ones) are truthy. -/
def truthy : Option Answer → Bool
  | none => false
  | some (.str s) => s != ""
  | some (.arr _) => true

/-- The value used when a JS value is coerced to a property key:
strings unchanged, arrays joined with commas (`ToPropertyKey`). -/
def keyOfAnswer : Answer → String
  | .str s => s
  | .arr l => String.intercalate "," l

/-- A voting session (`votingSessionSchema`, lines 45-51). -/
structure VotingSession where
  id : String
  title : String
  sections : List Section
  isActive : Bool
deriving DecidableEq, Repr

/-- A stored vote document (`voteSchema`, lines 53-60). -/
structure VoteDoc where
  votingSessionId : String
  companyId : String
  votes : VotesMap
  timestamp : Int
  ipAddress : String
  deviceId : String
deriving DecidableEq, Repr

/-- A company (`companySchema`, lines 19-23). -/
structure Company where
  id : String
  name : String
deriving DecidableEq, Repr

/-- The database state: the three collections, each a list in insertion
order (MongoDB natural order for append-only collections). -/
structure DB where
  companies : List Company
  sessions : List VotingSession
  votes : List VoteDoc
deriving DecidableEq, Repr

/-! ## Section validation (POST /api/vote, server.js lines 200-261) -/

/-- Option names of a section (`section.options.map(opt => opt.name)`). -/
def optionNames (s : Section) : List String := s.options.map (·.name)

/-- The required-section check (lines 204-218).  For `text-input` the
source condition is `!voteValue || (typeof voteValue === 'string' &&
voteValue.trim() === '')`; a falsy string is `""`, whose trim is also
`""`, so for a string answer the condition is `trim = ""`, and an array
answer passes (it is truthy and not a string).  For the other types the
condition is `!voteValue || (Array.isArray(voteValue) &&
voteValue.length === 0)`. -/
def requiredError (s : Section) (a : Option Answer) : Option String :=
  if s.required then
    match s.ty with
    | .textInput =>
      match a with
      | none => some ("Please provide a value for " ++ s.label)
      | some (.str w) =>
        if w.trim = "" then some ("Please provide a value for " ++ s.label) else none
      | some (.arr _) => none
    | _ =>
      match a with
      | none => some ("Please select at least one option for " ++ s.label)
      | some (.str w) =>
        if w = "" then some ("Please select at least one option for " ++ s.label) else none
      | some (.arr l) =>
        if l.isEmpty then some ("Please select at least one option for " ++ s.label) else none
  else none

/-- The type-specific check (lines 221-259), reached only when the
required check passed.  All checks run only when the answer is truthy.
For `single-select`, `validOptions.includes(voteValue)` uses strict
equality, so an array answer never matches.  For `multi-select` the
length bounds are checked before element membership. -/
def typeError (s : Section) (a : Option Answer) : Option String :=
  match s.ty with
  | .singleSelect =>
    if truthy a then
      match a with
      | some (.str v) =>
        if (optionNames s).contains v then none
        else some ("Invalid option selected for " ++ s.label)
      | some (.arr _) => some ("Invalid option selected for " ++ s.label)
      | none => none
    else none
  | .multiSelect =>
    if truthy a then
      match a with
      | some (.arr l) =>
        if l.length < s.minSelections then
          some ("Please select at least " ++ toString s.minSelections ++ " option(s) for " ++ s.label)
        else if s.maxSelections < l.length then
          some ("Please select at most " ++ toString s.maxSelections ++ " option(s) for " ++ s.label)
        else if l.all (fun o => (optionNames s).contains o) then none
        else some ("Invalid option selected for " ++ s.label)
      | _ => some (s.label ++ " must be an array")
    else none
  | .textInput => none

/-- Validation of one section: the required check, then the
type-specific check (order as in the source loop body). -/
def checkSection (s : Section) (a : Option Answer) : Option String :=
  match requiredError s a with
  | some m => some m
  | none => typeError s a

/-- The validation loop (lines 200-261): sections in definition order,
returning the first failure's message (the handler returns 400 with it). -/
def validate : List Section → VotesMap → Option String
  | [], _ => none
  | s :: rest, votes =>
    match checkSection s (votes.lookup s.id) with
    | some m => some m
    | none => validate rest votes

/-! ## Revote throttle (POST /api/vote, server.js lines 179-193) -/

/-- Three hours in milliseconds. -/
def windowMs : Int := 3 * 60 * 60 * 1000

/-- The query predicate of `Vote.findOne(\x7bdeviceId, votingSessionId,
timestamp: \x7b$gte: threeHoursAgo\x7d\x7d)`. -/
def throttleMatch (deviceId sessionId : String) (now : Int) (v : VoteDoc) : Bool :=
  v.deviceId == deviceId && v.votingSessionId == sessionId &&
    decide (now - windowMs ≤ v.timestamp)

/-- The throttle check: `findOne` with no sort returns the first match in
natural (insertion) order; if found, `timeLeft = Math.ceil((timestamp +
3h - now) / 1000 / 60)` minutes (the float computation is exact for the
values in range, hence the integer ceiling division). -/
def checkThrottle (votes : List VoteDoc) (deviceId sessionId : String) (now : Int) :
    Option Int :=
  match votes.find? (throttleMatch deviceId sessionId now) with
  | some v => some ((v.timestamp + windowMs - now + 59999) / 60000)
  | none => none

/-! ## POST /api/vote handler (server.js lines 157-282) -/

/-- The request body of POST /api/vote.  `votes = none` models an absent
or non-object `votes` field; `deviceId = ""` models a falsy device id. -/
structure VoteReq where
  companyId : String
  votingSessionId : String
  votes : Option VotesMap
  deviceId : String
deriving DecidableEq, Repr

/-- Response of POST /api/vote: success with `canVoteAgainAt`, or an
error with HTTP status and message. -/
inductive VoteResp
  | ok (canVoteAgainAt : Int)
  | err (status : Nat) (message : String)
deriving DecidableEq, Repr

/-- Whether the response is the success response. -/
def VoteResp.isOk : VoteResp → Bool
  | .ok _ => true
  | .err _ _ => false

/-- The vote document stored on success (lines 263-271); `timestamp`
defaults to `Date.now()` at save time. -/
def newVoteDoc (req : VoteReq) (now : Int) (ip : String) : VoteDoc :=
  { votingSessionId := req.votingSessionId
    companyId := req.companyId
    votes := req.votes.getD []
    timestamp := now
    ipAddress := ip
    deviceId := req.deviceId }

/-- The POST /api/vote handler as a pure state transformer: device-id
check, company lookup, active-session lookup, throttle, votes-object
check, section validation, then (and only then) the vote is saved. -/
def postVote (db : DB) (req : VoteReq) (now : Int) (ip : String) : DB × VoteResp :=
  if req.deviceId = "" then (db, .err 400 "Device ID is required")
  else
    match db.companies.find? (fun c => c.id == req.companyId) with
    | none => (db, .err 404 "Company not found")
    | some _ =>
      match db.sessions.find? (fun s => s.id == req.votingSessionId && s.isActive) with
      | none => (db, .err 400 "Invalid or expired voting session")
      | some session =>
        match checkThrottle db.votes req.deviceId req.votingSessionId now with
        | some timeLeft =>
          (db, .err 429 ("You can vote again in " ++ toString timeLeft ++ " minutes"))
        | none =>
          match req.votes with
          | none => (db, .err 400 "Invalid votes data")
          | some vm =>
            match validate session.sections vm with
            | some m => (db, .err 400 m)
            | none =>
              ({ db with votes := db.votes ++ [newVoteDoc req now ip] },
               .ok (now + windowMs))

/-! ## Admin session operations (server.js lines 577-696) -/

/-- The effect of POST /api/admin/create-voting on the sessions
collection (lines 631-641): `updateMany(\x7b\x7d, \x7bisActive:false\x7d)`
then save a new session with `isActive: true`.  The request-validation
branches (lines 581-629) perform no writes. -/
def createVoting (sessions : List VotingSession) (newId title : String)
    (secs : List Section) : List VotingSession :=
  (sessions.map (fun s => { s with isActive := false })) ++
    [{ id := newId, title := title, sections := secs, isActive := true }]

/-- The effect of PATCH /api/admin/voting/:id/toggle on the sessions
collection (lines 675-696): `findOne` the session by id, flip its
`isActive`, save it.  Only the first match (ids are unique-indexed) is
written; a missing id changes nothing. -/
def toggleSession : List VotingSession → String → List VotingSession
  | [], _ => []
  | s :: rest, sid =>
    if s.id == sid then { s with isActive := !s.isActive } :: rest
    else s :: toggleSession rest sid

/-- Number of sessions with `isActive = true`. -/
def countActive (sessions : List VotingSession) : Nat :=
  (sessions.filter (·.isActive)).length

/-! ## JS object model (insertion-ordered string-keyed records)

The tally builds plain JS objects keyed by section id / option name.
Property enumeration (`Object.entries`) lists array-index-like keys
first in ascending numeric order, then the remaining string keys in
insertion order. -/

/-- A JS object as an insertion-ordered association list. -/
abbrev JsObj (α : Type) := List (String × α)

/-- Property read. -/
def jsGet {α : Type} (o : JsObj α) (k : String) : Option α := o.lookup k

/-- Property write: update in place if the key exists, else append. -/
def jsSet {α : Type} : JsObj α → String → α → JsObj α
  | [], k, v => [(k, v)]
  | (k', v') :: rest, k, v =>
    if k' == k then (k, v) :: rest else (k', v') :: jsSet rest k v

/-- Numeric value of a digit list, most significant digit first. -/
def digitsVal (cs : List Char) : Nat :=
  cs.foldl (fun n c => n * 10 + (c.toNat - 48)) 0

/-- Canonical array-index test: a key is an array index iff it is the
canonical decimal numeral (digits only, no leading zero except "0"
itself) of some `n < 2^32 - 1`. -/
def jsArrayIndex (s : String) : Option Nat :=
  match s.data with
  | [] => none
  | c :: cs =>
    if (c :: cs).all Char.isDigit && (c != '0' || cs.isEmpty) &&
        digitsVal (c :: cs) < 4294967295 then
      some (digitsVal (c :: cs))
    else none

/-- Stable insertion into a list: `x` goes immediately before the first
`y` with `le x y`; ties keep `x` (the later-processed element) after
nothing — `sortLe` below inserts earlier elements last, so equal
elements keep their original relative order. -/
def insertLe {α : Type} (le : α → α → Bool) (x : α) : List α → List α
  | [] => [x]
  | y :: ys => if le x y then x :: y :: ys else y :: insertLe le x ys

/-- Stable insertion sort with respect to `le`. -/
def sortLe {α : Type} (le : α → α → Bool) : List α → List α
  | [] => []
  | x :: xs => insertLe le x (sortLe le xs)

/-- Ascending order on entries whose keys are array indices. -/
def idxLe {α : Type} (p q : String × α) : Bool :=
  decide ((jsArrayIndex p.1).getD 0 ≤ (jsArrayIndex q.1).getD 0)

/-- `Object.entries`: array-index keys first (ascending), then the
remaining keys in insertion order. -/
def jsEntries {α : Type} (o : JsObj α) : JsObj α :=
  sortLe idxLe (o.filter (fun p => (jsArrayIndex p.1).isSome)) ++
    o.filter (fun p => (jsArrayIndex p.1).isNone)

/-! ## Tally engine (GET /api/results/:votingSessionId, lines 284-386) -/

/-- Per-option accumulator: `\x7bvotes: 0, imageUrl\x7d` (lines 312-317). -/
structure OptCount where
  votes : Nat
  imageUrl : Option String
deriving DecidableEq, Repr

/-- One entry of the `results` object: a text-input entry with its
response list, or a select entry with its options object.  The stored
`type`/`label` fields are carried along. -/
inductive SectionRes
  | textRes (label : String) (responses : List (String × Int))
  | optRes (ty : SectionTy) (label : String) (options : JsObj OptCount)
deriving DecidableEq, Repr

/-- Results-object initialization for one section (lines 298-319). -/
def initSection (s : Section) : SectionRes :=
  match s.ty with
  | .textInput => .textRes s.label []
  | t => .optRes t s.label
      (s.options.foldl (fun o opt => jsSet o opt.name ⟨0, opt.imageUrl⟩) [])

/-- The whole initial `results` object. -/
def initResults (sections : List Section) : JsObj SectionRes :=
  sections.foldl (fun r s => jsSet r s.id (initSection s)) []

/-- `if (results[id].options[option]) results[id].options[option].votes++`:
increment when present, silently ignore unknown keys. -/
def jsIncr (o : JsObj OptCount) (k : String) : JsObj OptCount :=
  match jsGet o k with
  | some c => jsSet o k ⟨c.votes + 1, c.imageUrl⟩
  | none => o

/-- One step of the counting loop (lines 325-348): one vote document and
one section.  `Except.error ()` models a thrown `TypeError`:
`sectionVote.trim()` on a truthy non-string (an array), or property
access through a `results` entry of the wrong shape (possible only with
duplicate section ids). -/
def countStep (res : JsObj SectionRes) (vd : VoteDoc) (s : Section) :
    Except Unit (JsObj SectionRes) :=
  let a := vd.votes.lookup s.id
  match s.ty with
  | .textInput =>
    match a with
    | some (.str w) =>
      if w != "" then
        if w.trim != "" then
          match jsGet res s.id with
          | some (.textRes lab rs) =>
            .ok (jsSet res s.id (.textRes lab (rs ++ [(w, vd.timestamp)])))
          | _ => .error ()
        else .ok res
      else .ok res
    | some (.arr _) => .error ()
    | none => .ok res
  | .singleSelect =>
    if truthy a then
      match jsGet res s.id with
      | some (.optRes t lab opts) =>
        match a with
        | some ans => .ok (jsSet res s.id (.optRes t lab (jsIncr opts (keyOfAnswer ans))))
        | none => .ok res
      | _ => .error ()
    else .ok res
  | .multiSelect =>
    match a with
    | some (.arr l) =>
      match jsGet res s.id with
      | some (.optRes t lab opts) =>
        .ok (jsSet res s.id (.optRes t lab (l.foldl jsIncr opts)))
      | _ => if l.isEmpty then .ok res else .error ()
    | _ => .ok res

/-- The counting loop (lines 322-349): outer iteration over vote
documents, inner iteration over sections; a thrown error aborts the
whole request (caught at line 382 and turned into a 500). -/
def countVotes (sections : List Section) (votes : List VoteDoc)
    (res : JsObj SectionRes) : Except Unit (JsObj SectionRes) :=
  votes.foldlM (fun r vd => sections.foldlM (fun r' s => countStep r' vd s) r) res

/-- A formatted option of the response (lines 365-370). -/
structure FmtOption where
  name : String
  votes : Nat
  imageUrl : Option String
deriving DecidableEq, Repr

/-- Descending order on formatted options: the comparator
`(a, b) => b.votes - a.votes` sorts so that `a` stays before `b`
whenever `b.votes ≤ a.votes`. -/
def votesDescLe (a b : FmtOption) : Bool := decide (b.votes ≤ a.votes)

/-- A formatted section of the response. -/
inductive FmtSection
  | textRes (label : String) (responses : List (String × Int))
  | optRes (ty : SectionTy) (label : String) (options : List FmtOption)
deriving DecidableEq, Repr

/-- Result formatting for one section (lines 354-374): for select
sections, `Object.entries` of the options object, mapped to records,
then stably sorted by descending vote count. -/
def fmtSection : SectionRes → FmtSection
  | .textRes lab rs => .textRes lab rs
  | .optRes t lab opts =>
    .optRes t lab
      (sortLe votesDescLe ((jsEntries opts).map (fun p => ⟨p.1, p.2.votes, p.2.imageUrl⟩)))

/-- The whole formatted results object (lines 352-374). -/
def formatResults (res : JsObj SectionRes) : JsObj FmtSection :=
  (jsEntries res).map (fun p => (p.1, fmtSection p.2))

/-- The GET /api/results/:votingSessionId response body. -/
structure ResultsResp where
  active : Bool
  title : String
  results : JsObj FmtSection
  totalVotes : Nat
deriving DecidableEq, Repr

/-- The GET /api/results/:votingSessionId handler: `.ok none` is the 404
branch, `.error ()` the caught exception (500), `.ok (some _)` the JSON
response with `totalVotes = allVotes.length` (line 380). -/
def getResults (sessions : List VotingSession) (votes : List VoteDoc)
    (sid : String) : Except Unit (Option ResultsResp) :=
  match sessions.find? (fun s => s.id == sid) with
  | none => .ok none
  | some session =>
    let allVotes := votes.filter (fun v => v.votingSessionId == sid)
    match countVotes session.sections allVotes (initResults session.sections) with
    | .error e => .error e
    | .ok res =>
      .ok (some { active := session.isActive, title := session.title,
                  results := formatResults res, totalVotes := allVotes.length })

/-! ## Auxiliary definitions used by the theorems -/

/-- Whether an answer is an array. -/
def Answer.isArr : Answer → Bool
  | .str _ => false
  | .arr _ => true

/-- The options object of a results entry (empty for text entries). -/
def optsOf : SectionRes → JsObj OptCount
  | .textRes _ _ => []
  | .optRes _ _ o => o

/-- The response list of a results entry (empty for select entries). -/
def responsesOf : SectionRes → List (String × Int)
  | .textRes _ rs => rs
  | .optRes _ _ _ => []

/-- A results entry has the shape the counting loop expects for the
section: text entries for text sections, options entries otherwise. -/
def shapeOk (s : Section) : SectionRes → Bool
  | .textRes _ _ => s.ty == .textInput
  | .optRes _ _ _ => s.ty != .textInput

/-- A vote document does not make the counting loop throw on this
section: for a text-input section the stored answer must not be an
array (`sectionVote.trim()` would throw). -/
def textSafe (s : Section) (vd : VoteDoc) : Bool :=
  match s.ty, vd.votes.lookup s.id with
  | .textInput, some (.arr _) => false
  | _, _ => true

/-- The pure effect of the counting loop body on the section's own
results entry (the success branches of `countStep`). -/
def stepSection (s : Section) (r : SectionRes) (vd : VoteDoc) : SectionRes :=
  let a := vd.votes.lookup s.id
  match s.ty, r with
  | .textInput, .textRes lab rs =>
    match a with
    | some (.str w) =>
      if w != "" && w.trim != "" then .textRes lab (rs ++ [(w, vd.timestamp)])
      else .textRes lab rs
    | _ => .textRes lab rs
  | .singleSelect, .optRes t lab opts =>
    if truthy a then
      match a with
      | some ans => .optRes t lab (jsIncr opts (keyOfAnswer ans))
      | none => .optRes t lab opts
    else .optRes t lab opts
  | .multiSelect, .optRes t lab opts =>
    match a with
    | some (.arr l) => .optRes t lab (l.foldl jsIncr opts)
    | _ => .optRes t lab opts
  | _, r => r

/-- The per-section tally: fold of `stepSection` over the vote documents
starting from the initialized entry. -/
def sectionTally (s : Section) (votes : List VoteDoc) : SectionRes :=
  votes.foldl (stepSection s) (initSection s)

/-- How many increments one vote document contributes to the option
named `name` of section `s`: one for a matching truthy single-select
answer, one per occurrence in a multi-select list. -/
def contrib (s : Section) (name : String) (vd : VoteDoc) : Nat :=
  match s.ty with
  | .singleSelect =>
    match vd.votes.lookup s.id with
    | some a => if truthy (some a) && keyOfAnswer a == name then 1 else 0
    | none => 0
  | .multiSelect =>
    match vd.votes.lookup s.id with
    | some (.arr l) => l.count name
    | _ => 0
  | .textInput => 0

/-- Total contributions of a vote document to section `s` across a list
of option names. -/
def contribSum (s : Section) (names : List String) (vd : VoteDoc) : Nat :=
  (names.map (fun n => contrib s n vd)).sum

/-- Sum of the displayed vote counts of a formatted option list. -/
def sumVotes (l : List FmtOption) : Nat := (l.map (·.votes)).sum

/-- The options list of a formatted section (empty for text sections). -/
def fmtOptions : FmtSection → List FmtOption
  | .textRes _ _ => []
  | .optRes _ _ l => l

/-- Modelled from the spec's words for comparison with `checkThrottle`:
the most recent vote by this device for this session with `timestamp ≥
now − window`, and the retry value the spec computes from it. -/
def mostRecentVote (votes : List VoteDoc) (deviceId sessionId : String)
    (now : Int) : Option VoteDoc :=
  (votes.filter (throttleMatch deviceId sessionId now)).foldl
    (fun acc v =>
      match acc with
      | none => some v
      | some w => if w.timestamp < v.timestamp then some v else some w) none

/-- Modelled from the spec's words: `retryAfter = ceil((foundTimestamp +
window − now) / 60s)` computed from the most recent matching vote. -/
def specRetryAfter (votes : List VoteDoc) (deviceId sessionId : String)
    (now : Int) : Option Int :=
  (mostRecentVote votes deviceId sessionId now).map
    (fun v => (v.timestamp + windowMs - now + 59999) / 60000)

/-! ## Concrete inputs used by counterexamples and witnesses -/

/-- An active session with no sections. -/
def sessA : VotingSession := ⟨"a", "A", [], true⟩

/-- An inactive session with no sections. -/
def sessB : VotingSession := ⟨"b", "B", [], false⟩

/-- A vote by device `dev` at time 0. -/
def cexVote0 : VoteDoc := ⟨"sess", "co", [], 0, "ip", "dev"⟩

/-- A later vote by the same device at time 600000 (ten minutes). -/
def cexVote10 : VoteDoc := ⟨"sess", "co", [], 600000, "ip", "dev"⟩

/-- A non-required multi-select section with `minSelections = 1`,
`maxSelections = 2` and options A, B, C. -/
def msSec : Section :=
  ⟨"ms", "MS", .multiSelect, false, [⟨"A", none⟩, ⟨"B", none⟩, ⟨"C", none⟩], 1, 2⟩

/-- The spec scenario's single-select section: host with options A, B. -/
def hostSec : Section :=
  ⟨"host", "Host", .singleSelect, true, [⟨"A", none⟩, ⟨"B", none⟩], 1, 1⟩

/-- The spec scenario's optional text-input section. -/
def commentSec : Section := ⟨"comment", "Comment", .textInput, false, [], 1, 1⟩

/-- The spec scenario's session. -/
def specSession : VotingSession := ⟨"s1", "NYE", [hostSec, commentSec], true⟩

/-- Vote 1 of the spec scenario: host A, no comment. -/
def vote1 : VoteDoc := ⟨"s1", "c1", [("host", .str "A")], 100, "ip", "d1"⟩

/-- Vote 2 of the spec scenario: host B, comment present. -/
def vote2 : VoteDoc :=
  ⟨"s1", "c1", [("host", .str "B"), ("comment", .str "great!")], 200, "ip", "d2"⟩

/-- A single-select section whose option names are the numerals 2 and 1,
defined in that order. -/
def numSec : Section :=
  ⟨"n", "Num", .singleSelect, true, [⟨"2", none⟩, ⟨"1", none⟩], 1, 1⟩

/-- A session holding `numSec`. -/
def numSession : VotingSession := ⟨"s2", "T", [numSec], true⟩

/-- A stored vote that passes validation (text answers are not
type-checked) but whose text-input answer is an array: it makes the
tally throw. -/
def crashVote : VoteDoc :=
  ⟨"s1", "c1", [("host", .str "A"), ("comment", .arr ["x"])], 100, "ip", "d1"⟩

/-- A stored vote carrying an unknown (stale) option name. -/
def driftVote : VoteDoc := ⟨"s1", "c1", [("host", .str "Z")], 300, "ip", "d4"⟩

/-- A vote selecting option A twice in the multi-select section. -/
def dupVote : VoteDoc := ⟨"s1", "c1", [("ms", .arr ["A", "A"])], 0, "ip", "d3"⟩

/-! ## Basic lemmas about the JS object model -/

/-- Unfolding of `jsGet` on a cons cell. -/
theorem jsGet_cons {α : Type} (k₀ k : String) (v₀ : α) (rest : JsObj α) :
    jsGet ((k₀, v₀) :: rest) k = if k = k₀ then some v₀ else jsGet rest k := by
  by_cases h : k = k₀
  · have hb : (k == k₀) = true := by simp [h]
    simp [jsGet, List.lookup, hb, h]
  · have hb : (k == k₀) = false := by simp [h]
    simp [jsGet, List.lookup, hb, h]

/-- Unfolding of `jsSet` on a cons cell. -/
theorem jsSet_cons {α : Type} (k₀ k : String) (v₀ v : α) (rest : JsObj α) :
    jsSet ((k₀, v₀) :: rest) k v =
      if k₀ = k then (k, v) :: rest else (k₀, v₀) :: jsSet rest k v := by
  by_cases h : k₀ = k
  · have hb : (k₀ == k) = true := by simp [h]
    simp [jsSet, hb, h]
  · have hb : (k₀ == k) = false := by simp [h]
    simp [jsSet, hb, h]

/-- Reading the key just written. -/
theorem jsGet_jsSet_self {α : Type} (o : JsObj α) (k : String) (v : α) :
    jsGet (jsSet o k v) k = some v := by
  induction o with
  | nil => simp [jsGet_cons, jsSet]
  | cons p rest ih =>
    obtain ⟨k', v'⟩ := p
    by_cases h : k' = k
    · simp [jsSet_cons, jsGet_cons, h]
    · simp [jsSet_cons, jsGet_cons, h, Ne.symm h, ih]

/-- Reading another key after a write. -/
theorem jsGet_jsSet_ne {α : Type} (o : JsObj α) (k k' : String) (v : α)
    (h : k' ≠ k) : jsGet (jsSet o k v) k' = jsGet o k' := by
  induction o with
  | nil =>
    show jsGet [(k, v)] k' = jsGet [] k'
    rw [jsGet_cons, if_neg h]
  | cons p rest ih =>
    obtain ⟨k₀, v₀⟩ := p
    by_cases h0 : k₀ = k
    · subst h0
      simp [jsSet_cons, jsGet_cons, h, Ne.symm h]
    · by_cases h1 : k' = k₀ <;> simp [jsSet_cons, jsGet_cons, h0, h1, ih]

/-- Writing back the value already present changes nothing. -/
theorem jsSet_self {α : Type} (o : JsObj α) (k : String) (v : α)
    (h : jsGet o k = some v) : jsSet o k v = o := by
  induction o with
  | nil => simp [jsGet, List.lookup] at h
  | cons p rest ih =>
    obtain ⟨k₀, v₀⟩ := p
    by_cases h0 : k = k₀
    · subst h0
      rw [jsGet_cons] at h
      simp at h
      simp [jsSet_cons, h]
    · rw [jsGet_cons, if_neg h0] at h
      simp [jsSet_cons, Ne.symm h0, ih h]

/-- Incrementing a key leaves other keys unread. -/
theorem jsGet_jsIncr_ne (o : JsObj OptCount) (k k' : String) (h : k' ≠ k) :
    jsGet (jsIncr o k) k' = jsGet o k' := by
  unfold jsIncr
  match h0 : jsGet o k with
  | some c => exact jsGet_jsSet_ne o k k' _ h
  | none => rfl

/-- Incrementing a present key adds one to its count. -/
theorem jsGet_jsIncr_self (o : JsObj OptCount) (k : String) (c : OptCount)
    (h : jsGet o k = some c) :
    jsGet (jsIncr o k) k = some ⟨c.votes + 1, c.imageUrl⟩ := by
  unfold jsIncr
  rw [h]
  exact jsGet_jsSet_self o k _

/-- Incrementing an absent key does nothing. -/
theorem jsIncr_absent (o : JsObj OptCount) (k : String) (h : jsGet o k = none) :
    jsIncr o k = o := by
  unfold jsIncr
  rw [h]

/-- A fold of increments over a list adds the number of occurrences of a
present key to its count. -/
theorem jsGet_foldl_jsIncr (l : List String) (o : JsObj OptCount) (k : String)
    (c : OptCount) (h : jsGet o k = some c) :
    jsGet (l.foldl jsIncr o) k = some ⟨c.votes + l.count k, c.imageUrl⟩ := by
  induction l generalizing o c with
  | nil => simpa [List.count_nil] using h
  | cons x rest ih =>
    by_cases hx : x = k
    · subst hx
      have h1 : jsGet (jsIncr o x) x = some ⟨c.votes + 1, c.imageUrl⟩ :=
        jsGet_jsIncr_self o x c h
      have := ih (jsIncr o x) ⟨c.votes + 1, c.imageUrl⟩ h1
      simpa [List.count_cons, Nat.add_comm, Nat.add_assoc, Nat.add_left_comm] using this
    · have h1 : jsGet (jsIncr o x) k = some c := by
        rw [jsGet_jsIncr_ne o x k (Ne.symm hx)]; exact h
      have := ih (jsIncr o x) c h1
      simpa [List.count_cons, hx] using this

/-! ## C1: active-session invariant -/

/-- Toggling a session whose id is absent changes nothing. -/
theorem toggleSession_not_mem (ss : List VotingSession) (sid : String)
    (h : ∀ s ∈ ss, s.id ≠ sid) : toggleSession ss sid = ss := by
  induction ss with
  | nil => rfl
  | cons s rest ih =>
    have hs : s.id ≠ sid := h s (by simp)
    have hb : (s.id == sid) = false := by simp [hs]
    simp [toggleSession, hb, ih (fun t ht => h t (by simp [ht]))]

/-- Unfolding of `countActive` on a cons cell. -/
theorem countActive_cons (s : VotingSession) (rest : List VotingSession) :
    countActive (s :: rest) = (if s.isActive then 1 else 0) + countActive rest := by
  by_cases h : s.isActive <;> simp [countActive, List.filter_cons, h, Nat.add_comm]

/-- A list with no active session has `countActive = 0`. -/
theorem countActive_eq_zero (ss : List VotingSession) :
    countActive ss = 0 ↔ ∀ s ∈ ss, s.isActive = false := by
  simp [countActive, List.length_eq_zero, List.filter_eq_nil_iff]

/-- Unfolding of `toggleSession` on a cons cell. -/
theorem toggleSession_cons (s : VotingSession) (rest : List VotingSession)
    (sid : String) :
    toggleSession (s :: rest) sid =
      if s.id = sid then { s with isActive := !s.isActive } :: rest
      else s :: toggleSession rest sid := by
  by_cases h : s.id = sid
  · have hb : (s.id == sid) = true := by simp [h]
    simp [toggleSession, hb, h]
  · have hb : (s.id == sid) = false := by simp [h]
    simp [toggleSession, hb, h]

/-- C1 counterexample: starting from a state with exactly one active
session, toggling an inactive session activates it without deactivating
the other, leaving two active sessions — the claimed at-most-one-active
invariant fails for the toggle operation. -/
theorem c1_toggle_breaks_single_active :
    countActive [sessA, sessB] = 1 ∧
    countActive (toggleSession [sessA, sessB] "b") = 2 := by decide

/-- C1 amended: creating a voting session first deactivates every
existing session, so afterwards exactly one session is active; toggling
only flips the target session's flag, so it preserves the
at-most-one-active invariant only when the session it finds (if any) is
currently active (i.e. when it deactivates). -/
theorem c1_active_session_invariant :
    (∀ (ss : List VotingSession) (newId title : String) (secs : List Section),
      countActive (createVoting ss newId title secs) = 1) ∧
    (∀ (ss : List VotingSession) (sid : String),
      (∀ s ∈ ss, s.id = sid → s.isActive = true) →
      countActive ss ≤ 1 →
      countActive (toggleSession ss sid) ≤ 1) := by
  constructor
  · intro ss newId title secs
    simp [createVoting, countActive, List.filter_append, List.filter_map]
  · intro ss sid
    induction ss with
    | nil => intro _ _; simp [toggleSession, countActive]
    | cons s rest ih =>
      intro hact hcount
      rw [countActive_cons] at hcount
      by_cases h0 : s.id = sid
      · have hsa : s.isActive = true := hact s (by simp) h0
        rw [toggleSession_cons, if_pos h0, countActive_cons]
        simp only [hsa, if_true] at hcount
        simp [hsa]
        omega
      · rw [toggleSession_cons, if_neg h0, countActive_cons]
        by_cases hsa : s.isActive
        · have hrest0 : countActive rest = 0 := by
            simp only [hsa, if_true] at hcount; omega
          have hnone : ∀ t ∈ rest, t.id ≠ sid := by
            intro t ht hid
            have h1 := hact t (by simp [ht]) hid
            have h2 := (countActive_eq_zero rest).mp hrest0 t ht
            rw [h1] at h2
            exact absurd h2 (by simp)
          rw [toggleSession_not_mem rest sid hnone, hrest0]
          simp [hsa]
        · have hsa' : s.isActive = false := by simpa using hsa
          have hrest : countActive rest ≤ 1 := by
            rw [hsa'] at hcount; simp at hcount; omega
          have := ih (fun t ht hid => hact t (by simp [ht]) hid) hrest
          rw [hsa']
          simpa using this

/-- C1 witness: the amended theorem applied to a concrete two-session
state. -/
theorem c1_active_session_invariant_wit :
    countActive (createVoting [sessA, sessB] "c" "C" []) = 1 ∧
    countActive (toggleSession [sessA, sessB] "a") ≤ 1 :=
  ⟨c1_active_session_invariant.1 [sessA, sessB] "c" "C" [],
   c1_active_session_invariant.2 [sessA, sessB] "a" (by decide) (by decide)⟩

/-! ## C2: revote throttle -/

/-- `checkThrottle` is the `Option.map` of the retry computation over
the first matching vote. -/
theorem checkThrottle_eq_map (votes : List VoteDoc) (d sid : String) (now : Int) :
    checkThrottle votes d sid now =
      (votes.find? (throttleMatch d sid now)).map
        (fun v => (v.timestamp + windowMs - now + 59999) / 60000) := by
  unfold checkThrottle
  cases votes.find? (throttleMatch d sid now) <;> rfl

/-- C2 counterexample: with two in-window votes by the same device (at
t=0 and t=600000) and now = 3600000, the handler computes `timeLeft`
from the first stored match (120 minutes), not from the most recent
vote, which would give 130 minutes — the claim's
computed-from-the-most-recent-vote statement fails. -/
theorem c2_first_found_not_most_recent :
    checkThrottle [cexVote0, cexVote10] "dev" "sess" 3600000 = some 120 ∧
    specRetryAfter [cexVote0, cexVote10] "dev" "sess" 3600000 = some 130 ∧
    (120 : Int) ≠ 130 := by decide

/-- C2 amended: a submission is throttled iff some vote by the device
for the session has `timestamp ≥ now − 3h`; `timeLeft = ceil((t + 3h −
now) / 60s)` is computed from the first matching vote in store order
(for a single in-window vote this is the most recent one, and the
spec's formula agrees); a device voting at t0 gets timeLeft 120 at
t0 + 1h and is eligible at t0 + 3h + 1s. -/
theorem c2_throttle_window :
    (∀ (votes : List VoteDoc) (d sid : String) (now : Int),
      checkThrottle votes d sid now = none ↔
        ∀ v ∈ votes, throttleMatch d sid now v = false) ∧
    (∀ (votes : List VoteDoc) (d sid : String) (now : Int) (v : VoteDoc),
      votes.find? (throttleMatch d sid now) = some v →
      checkThrottle votes d sid now =
        some ((v.timestamp + windowMs - now + 59999) / 60000)) ∧
    (∀ (v : VoteDoc) (d sid : String) (now : Int),
      throttleMatch d sid now v = true →
      checkThrottle [v] d sid now = specRetryAfter [v] d sid now) ∧
    checkThrottle [cexVote0] "dev" "sess" 3600000 = some 120 ∧
    checkThrottle [cexVote0] "dev" "sess" 10801000 = none := by
  refine ⟨?_, ?_, ?_, by decide, by decide⟩
  · intro votes d sid now
    rw [checkThrottle_eq_map]
    simp [List.find?_eq_none]
  · intro votes d sid now v h
    rw [checkThrottle_eq_map, h]
    rfl
  · intro v d sid now h
    simp [checkThrottle, specRetryAfter, mostRecentVote,
      List.find?_cons_of_pos _ h, List.filter_cons, h]

/-- C2 witness: the amended theorem applied at concrete inputs. -/
theorem c2_throttle_window_wit :
    checkThrottle [cexVote0, cexVote10] "dev" "sess" 3600000 = some 120 ∧
    checkThrottle [cexVote0] "dev" "sess" 3600000 =
      specRetryAfter [cexVote0] "dev" "sess" 3600000 :=
  ⟨by rw [c2_throttle_window.2.1 [cexVote0, cexVote10] "dev" "sess" 3600000
        cexVote0 (by decide)]; decide,
   c2_throttle_window.2.2.1 cexVote0 "dev" "sess" 3600000 (by decide)⟩

/-! ## C3: multi-select validation -/

/-- C3 counterexample: on a non-required multi-select section
(`minSelections = 1`, `maxSelections = 2`), a present empty-string
answer is accepted although it is not a list — the falsy value skips
the type-specific checks, so acceptance is not equivalent to the
claimed list conditions. -/
theorem c3_falsy_answer_accepted :
    checkSection msSec (some (.str "")) = none ∧
    (Answer.str "").isArr = false ∧ msSec.minSelections = 1 := by decide

/-- Acceptance of a present answer by a multi-select section, as an
iff (shared between several results below). -/
theorem checkSection_multiSelect_none_iff (s : Section) (a : Answer)
    (hty : s.ty = .multiSelect) :
    checkSection s (some a) = none ↔
      ((a = .str "" ∧ s.required = false) ∨
       (∃ l, a = .arr l ∧ ¬(s.required = true ∧ l = []) ∧
         s.minSelections ≤ l.length ∧ l.length ≤ s.maxSelections ∧
         ∀ x ∈ l, x ∈ optionNames s)) := by
  cases a with
  | str w =>
    by_cases hreq : s.required = true <;> by_cases hw : w = "" <;>
      simp [checkSection, requiredError, typeError, hty, truthy, hreq, hw]
  | arr l =>
    have hnotstr : ∀ w : String, Answer.arr l ≠ Answer.str w := by intro w h; cases h
    by_cases hreq : s.required = true
    · by_cases hl : l = []
      · subst hl
        simp [checkSection, requiredError, typeError, hty, truthy, hreq]
      · have hle : l.isEmpty = false := by simp [hl]
        by_cases h1 : l.length < s.minSelections
        · simp [checkSection, requiredError, typeError, hty, truthy, hreq, hle, h1,
            hl, Nat.not_le.mpr h1]
        · by_cases h2 : s.maxSelections < l.length
          · simp [checkSection, requiredError, typeError, hty, truthy, hreq, hle,
              h1, h2, hl, Nat.not_le.mpr h2]
          · simp [checkSection, requiredError, typeError, hty, truthy, hreq, hle,
              h1, h2, hl, Nat.not_lt.mp h1, Nat.not_lt.mp h2,
              List.all_eq_true, List.elem_iff]
    · by_cases h1 : l.length < s.minSelections
      · simp [checkSection, requiredError, typeError, hty, truthy, hreq, h1,
          Nat.not_le.mpr h1]
      · by_cases h2 : s.maxSelections < l.length
        · simp [checkSection, requiredError, typeError, hty, truthy, hreq, h1, h2,
            Nat.not_le.mpr h2]
        · simp [checkSection, requiredError, typeError, hty, truthy, hreq, h1, h2,
            Nat.not_lt.mp h1, Nat.not_lt.mp h2, List.all_eq_true, List.elem_iff]

/-- C3 amended: for a multi-select section with a present answer,
validation accepts iff either the answer is the (falsy) empty string on
a non-required section — which skips the type checks — or it is a list
within `[minSelections, maxSelections]` whose elements are all option
names and which is not an empty list on a required section (the
required check fires before the length check). -/
theorem c3_multi_select_acceptance (s : Section) (a : Answer)
    (hty : s.ty = .multiSelect) :
    checkSection s (some a) = none ↔
      ((a = .str "" ∧ s.required = false) ∨
       (∃ l, a = .arr l ∧ ¬(s.required = true ∧ l = []) ∧
         s.minSelections ≤ l.length ∧ l.length ≤ s.maxSelections ∧
         ∀ x ∈ l, x ∈ optionNames s)) :=
  checkSection_multiSelect_none_iff s a hty

/-- C3 witness: the amended theorem accepting a valid two-element list
on the concrete multi-select section. -/
theorem c3_multi_select_acceptance_wit :
    checkSection msSec (some (.arr ["A", "B"])) = none :=
  (c3_multi_select_acceptance msSec (.arr ["A", "B"]) rfl).mpr
    (Or.inr ⟨["A", "B"], rfl, by decide, by decide, by decide, by decide⟩)

/-! ## C10: optional multi-select, absent vs. empty answer -/

/-- C10: on a non-required multi-select section with `minSelections ≥ 1`,
omitting the answer passes validation, but submitting an empty list is
rejected by the minimum-length check (the empty array is truthy, so the
type checks run). -/
theorem c10_optional_multi_empty_list (s : Section)
    (hty : s.ty = .multiSelect) (hreq : s.required = false)
    (hmin : 1 ≤ s.minSelections) :
    validate [s] [] = none ∧
    validate [s] [(s.id, .arr [])] =
      some ("Please select at least " ++ toString s.minSelections ++
        " option(s) for " ++ s.label) := by
  constructor
  · simp [validate, checkSection, requiredError, typeError, hty, hreq, truthy,
      List.lookup]
  · have hlook : List.lookup s.id [(s.id, Answer.arr [])] = some (.arr []) := by
      simp [List.lookup]
    have h0 : 0 < s.minSelections := hmin
    simp [validate, hlook, checkSection, requiredError, typeError, hty, hreq,
      truthy, h0]

/-- C10 witness: the theorem applied to the concrete optional
multi-select section. -/
theorem c10_optional_multi_empty_list_wit :
    validate [msSec] [] = none ∧
    validate [msSec] [("ms", .arr [])] =
      some "Please select at least 1 option(s) for MS" := by
  have h := c10_optional_multi_empty_list msSec rfl rfl (by decide)
  exact ⟨h.1, h.2.trans (by decide)⟩

/-! ## C9: duplicate option names in a multi-select answer -/

/-- C9: a multi-select list repeating a valid option name passes
validation whenever its length is within bounds, and the tally of a
vote holding that list increments the option once per occurrence — a
single vote contributes more than once to the same option. -/
theorem c9_duplicate_option_counted (s : Section) (l : List String) (o : String)
    (vd : VoteDoc) (c : OptCount)
    (hty : s.ty = .multiSelect)
    (hmem : ∀ x ∈ l, x ∈ optionNames s)
    (hlen1 : s.minSelections ≤ l.length) (hlen2 : l.length ≤ s.maxSelections)
    (hdup : 2 ≤ l.count o)
    (hvd : vd.votes.lookup s.id = some (.arr l))
    (hinit : jsGet (optsOf (initSection s)) o = some c) :
    checkSection s (some (.arr l)) = none ∧
    jsGet (optsOf (sectionTally s [vd])) o =
      some ⟨c.votes + l.count o, c.imageUrl⟩ ∧
    2 ≤ l.count o := by
  have hne : l ≠ [] := by
    intro h; subst h; simp [List.count_nil] at hdup
  have hle : l.isEmpty = false := by simp [hne]
  have h1 : ¬(l.length < s.minSelections) := Nat.not_lt.mpr hlen1
  have h2 : ¬(s.maxSelections < l.length) := Nat.not_lt.mpr hlen2
  have hall : l.all (fun x => (optionNames s).contains x) = true := by
    simp only [List.all_eq_true]
    intro x hx
    exact (List.elem_iff).mpr (hmem x hx)
  have hinitdef : initSection s = .optRes .multiSelect s.label
      (s.options.foldl (fun acc opt => jsSet acc opt.name ⟨0, opt.imageUrl⟩) []) := by
    unfold initSection; rw [hty]
  refine ⟨?_, ?_, hdup⟩
  · by_cases hreq : s.required = true <;>
      simp [checkSection, requiredError, typeError, hty, truthy, hreq, hle,
        h1, h2, hall] <;> exact hmem
  · have hstep : sectionTally s [vd] = stepSection s (initSection s) vd := rfl
    rw [hstep, hinitdef]
    rw [hinitdef] at hinit
    simp only [optsOf] at hinit
    simp only [stepSection, hty, hvd, optsOf]
    exact jsGet_foldl_jsIncr l _ o c hinit

/-- C9 witness: selecting option A twice on the concrete multi-select
section (bounds 1..2) passes validation and tallies 2 for A. -/
theorem c9_duplicate_option_counted_wit :
    checkSection msSec (some (.arr ["A", "A"])) = none ∧
    jsGet (optsOf (sectionTally msSec [dupVote])) "A" = some ⟨2, none⟩ ∧
    2 ≤ (["A", "A"] : List String).count "A" := by
  have h := c9_duplicate_option_counted msSec ["A", "A"] "A" dupVote ⟨0, none⟩
    rfl (by decide) (by decide) (by decide) (by decide) (by decide) (by decide)
  exact ⟨h.1, h.2.1.trans (by decide), h.2.2⟩

/-! ## C4: validation order, short-circuit, and labelled messages -/

/-- A string of the form `p ++ lab` embeds `lab`. -/
theorem append_label_left (p lab : String) : ∃ x y, p ++ lab = x ++ lab ++ y :=
  ⟨p, "", by simp⟩

/-- A string of the form `lab ++ q` embeds `lab`. -/
theorem append_label_right (lab q : String) : ∃ x y, lab ++ q = x ++ lab ++ y :=
  ⟨"", q, by simp⟩

/-- Every required-check failure message embeds the section's label. -/
theorem requiredError_msg (s : Section) (a : Option Answer) (msg : String)
    (h : requiredError s a = some msg) : ∃ x y, msg = x ++ s.label ++ y := by
  unfold requiredError at h
  repeat' split at h
  all_goals try cases h
  all_goals exact append_label_left _ _

/-- Every type-check failure message embeds the section's label. -/
theorem typeError_msg (s : Section) (a : Option Answer) (msg : String)
    (h : typeError s a = some msg) : ∃ x y, msg = x ++ s.label ++ y := by
  unfold typeError at h
  repeat' split at h
  all_goals try cases h
  all_goals first
    | exact append_label_left _ _
    | exact append_label_right _ _

/-- Every section-validation failure message embeds the label. -/
theorem checkSection_msg_label (s : Section) (a : Option Answer) (msg : String)
    (h : checkSection s a = some msg) : ∃ x y, msg = x ++ s.label ++ y := by
  unfold checkSection at h
  rcases hre : requiredError s a with _ | m <;> rw [hre] at h
  · exact typeError_msg s a msg h
  · injection h with h
    subst h
    exact requiredError_msg s a _ hre

/-- A failing `validate` run fails at the first failing section, in
definition order, and returns that section's message. -/
theorem validate_some_split (sections : List Section) (votes : VotesMap)
    (msg : String) (h : validate sections votes = some msg) :
    ∃ pre s post, sections = pre ++ s :: post ∧
      (∀ t ∈ pre, checkSection t (votes.lookup t.id) = none) ∧
      checkSection s (votes.lookup s.id) = some msg := by
  induction sections with
  | nil => cases h
  | cons s rest ih =>
    unfold validate at h
    rcases hc : checkSection s (votes.lookup s.id) with _ | m <;> rw [hc] at h
    · obtain ⟨pre, t, post, h1, h2, h3⟩ := ih h
      refine ⟨s :: pre, t, post, by rw [h1]; rfl, ?_, h3⟩
      intro u hu
      rcases List.mem_cons.mp hu with rfl | hu
      · exact hc
      · exact h2 u hu
    · injection h with h
      subst h
      refine ⟨[], s, rest, rfl, ?_, hc⟩
      intro t ht
      cases ht

/-- If any section fails on its own, the whole validation fails. -/
theorem validate_fails_of_mem (sections : List Section) (votes : VotesMap)
    (s : Section) (hs : s ∈ sections)
    (hfail : checkSection s (votes.lookup s.id) ≠ none) :
    validate sections votes ≠ none := by
  induction sections with
  | nil => cases hs
  | cons t rest ih =>
    unfold validate
    rcases hc : checkSection t (votes.lookup t.id) with _ | m
    · rcases List.mem_cons.mp hs with rfl | hmem
      · exact absurd hc hfail
      · exact ih hmem
    · simp

/-- A required section with a missing answer (or, for text-input, an
answer blank after trimming) fails its own check. -/
theorem checkSection_required_missing (s : Section) (votes : VotesMap)
    (hreq : s.required = true)
    (hmiss : votes.lookup s.id = none ∨
      (s.ty = .textInput ∧
        ∃ w, votes.lookup s.id = some (.str w) ∧ w.trim = "")) :
    checkSection s (votes.lookup s.id) ≠ none := by
  rcases hmiss with hmiss | ⟨hty, w, hw, htrim⟩
  · rw [hmiss]
    rcases hty : s.ty with _ | _ | _ <;>
      simp [checkSection, requiredError, hty, hreq]
  · rw [hw]
    simp [checkSection, requiredError, hty, hreq, htrim]

/-- C4: validation walks the sections in definition order and stops at
the first failing section, whose label is embedded in the returned
message; and a submission lacking an answer for some required section
(or blank after trimming, for text-input) is always rejected. -/
theorem c4_validation_order (sections : List Section) (votes : VotesMap) :
    (∀ msg, validate sections votes = some msg →
      ∃ pre s post, sections = pre ++ s :: post ∧
        (∀ t ∈ pre, checkSection t (votes.lookup t.id) = none) ∧
        checkSection s (votes.lookup s.id) = some msg ∧
        ∃ x y, msg = x ++ s.label ++ y) ∧
    (∀ s ∈ sections, s.required = true →
      (votes.lookup s.id = none ∨
        (s.ty = .textInput ∧
          ∃ w, votes.lookup s.id = some (.str w) ∧ w.trim = "")) →
      validate sections votes ≠ none) := by
  constructor
  · intro msg h
    obtain ⟨pre, s, post, h1, h2, h3⟩ := validate_some_split sections votes msg h
    exact ⟨pre, s, post, h1, h2, h3, checkSection_msg_label s _ msg h3⟩
  · intro s hs hreq hmiss
    exact validate_fails_of_mem sections votes s hs
      (checkSection_required_missing s votes hreq hmiss)

/-- C4 witness: a concrete run — with the required host section
unanswered, validation fails and the message names the section. -/
theorem c4_validation_order_wit :
    validate [hostSec, commentSec] [] ≠ none :=
  (c4_validation_order [hostSec, commentSec] []).2 hostSec (by decide)
    rfl (Or.inl rfl)

/-! ## C8: a vote document is stored exactly on acceptance -/

/-- C8: the POST /api/vote handler appends exactly one vote document
when (and only when) the submission is accepted; on any rejection —
missing device id, unknown company, missing or inactive session,
throttle, malformed votes object, or a failing section — the vote
collection is unchanged, and the handler never writes the company or
session collections. -/
theorem c8_vote_stored_iff_accepted (db : DB) (req : VoteReq) (now : Int)
    (ip : String) :
    (postVote db req now ip).1.votes =
      (if (postVote db req now ip).2.isOk then db.votes ++ [newVoteDoc req now ip]
       else db.votes) ∧
    (postVote db req now ip).1.companies = db.companies ∧
    (postVote db req now ip).1.sessions = db.sessions := by
  unfold postVote
  repeat' split
  all_goals simp_all [VoteResp.isOk]

/-! ## Structural lemmas: JS objects, entries order, stable sort -/

/-- A key reads as `some` exactly when it occurs among the keys. -/
theorem jsGet_isSome_iff {α : Type} (o : JsObj α) (k : String) :
    (jsGet o k).isSome = true ↔ k ∈ o.map Prod.fst := by
  induction o with
  | nil => simp [jsGet, List.lookup]
  | cons p rest ih =>
    obtain ⟨k₀, v₀⟩ := p
    by_cases h : k = k₀ <;> simp [jsGet_cons, h, ih]

/-- A key reads as `none` exactly when it is absent. -/
theorem jsGet_eq_none_iff {α : Type} (o : JsObj α) (k : String) :
    jsGet o k = none ↔ k ∉ o.map Prod.fst := by
  rw [← jsGet_isSome_iff]
  cases jsGet o k <;> simp

/-- With distinct keys, reading `some v` is the same as entry membership. -/
theorem jsGet_eq_some_iff_mem {α : Type} (o : JsObj α) (k : String) (v : α)
    (hnd : (o.map Prod.fst).Nodup) :
    jsGet o k = some v ↔ (k, v) ∈ o := by
  induction o with
  | nil => simp [jsGet, List.lookup]
  | cons p rest ih =>
    obtain ⟨k₀, v₀⟩ := p
    simp only [List.map_cons, List.nodup_cons] at hnd
    by_cases h : k = k₀
    · subst h
      rw [jsGet_cons, if_pos rfl]
      constructor
      · intro hv
        injection hv with hv
        subst hv
        exact List.mem_cons_self _ _
      · intro hv
        rcases List.mem_cons.mp hv with hv | hv
        · injection hv with _ hv
          rw [hv]
        · exact absurd (List.mem_map.mpr ⟨(k, v), hv, rfl⟩) hnd.1
    · rw [jsGet_cons, if_neg h, ih hnd.2]
      constructor
      · exact fun hv => List.mem_cons_of_mem _ hv
      · intro hv
        rcases List.mem_cons.mp hv with hv | hv
        · injection hv with hv
          exact absurd hv h
        · exact hv

/-- A JS object with distinct keys is determined by its key list and its
reads. -/
theorem jsObj_eq_map_keys {α : Type} (o : JsObj α) (g : String → α)
    (hnd : (o.map Prod.fst).Nodup)
    (hg : ∀ p ∈ o, g p.1 = p.2) :
    o = (o.map Prod.fst).map (fun k => (k, g k)) := by
  induction o with
  | nil => rfl
  | cons p rest ih =>
    obtain ⟨k₀, v₀⟩ := p
    simp only [List.map_cons, List.nodup_cons] at hnd
    simp only [List.map_cons]
    have h1 : g k₀ = v₀ := hg (k₀, v₀) (by simp)
    rw [h1]
    exact congrArg _ (ih hnd.2 (fun p hp => hg p (by simp [hp])))

/-- Writing an existing key keeps the key list. -/
theorem jsSet_keys_of_mem {α : Type} (o : JsObj α) (k : String) (v : α)
    (h : k ∈ o.map Prod.fst) :
    (jsSet o k v).map Prod.fst = o.map Prod.fst := by
  induction o with
  | nil => simp at h
  | cons p rest ih =>
    obtain ⟨k₀, v₀⟩ := p
    by_cases h0 : k₀ = k
    · simp [jsSet_cons, h0]
    · have hk : k ∈ rest.map Prod.fst := by
        simp only [List.map_cons, List.mem_cons] at h
        rcases h with h | h
        · exact absurd h.symm h0
        · exact h
      simp [jsSet_cons, h0, ih hk]

/-- Writing a fresh key appends the entry. -/
theorem jsSet_of_not_mem {α : Type} (o : JsObj α) (k : String) (v : α)
    (h : k ∉ o.map Prod.fst) : jsSet o k v = o ++ [(k, v)] := by
  induction o with
  | nil => rfl
  | cons p rest ih =>
    obtain ⟨k₀, v₀⟩ := p
    simp only [List.map_cons, List.mem_cons, not_or] at h
    have hne : ¬k₀ = k := fun hh => h.1 hh.symm
    simp [jsSet_cons, hne, ih h.2]

/-- Incrementing keeps the key list. -/
theorem jsIncr_keys (o : JsObj OptCount) (k : String) :
    (jsIncr o k).map Prod.fst = o.map Prod.fst := by
  unfold jsIncr
  match h : jsGet o k with
  | some c =>
    exact jsSet_keys_of_mem o k _ ((jsGet_isSome_iff o k).mp (by simp [h]))
  | none => rfl

/-- A fold of increments keeps the key list. -/
theorem foldl_jsIncr_keys (l : List String) (o : JsObj OptCount) :
    ((l.foldl jsIncr o).map Prod.fst) = o.map Prod.fst := by
  induction l generalizing o with
  | nil => rfl
  | cons x xs ih => rw [List.foldl_cons, ih, jsIncr_keys]

/-- Stable insertion permutes to a cons. -/
theorem insertLe_perm {α : Type} (le : α → α → Bool) (x : α) (l : List α) :
    List.Perm (insertLe le x l) (x :: l) := by
  induction l with
  | nil => exact List.Perm.refl _
  | cons y ys ih =>
    by_cases h : le x y = true
    · simp [insertLe, h]
    · simp only [insertLe, h, if_false, Bool.false_eq_true]
      exact (ih.cons y).trans (List.Perm.swap x y ys)

/-- The stable sort is a permutation. -/
theorem sortLe_perm {α : Type} (le : α → α → Bool) (l : List α) :
    List.Perm (sortLe le l) l := by
  induction l with
  | nil => exact List.Perm.refl _
  | cons x xs ih => exact (insertLe_perm le x (sortLe le xs)).trans (ih.cons x)

/-- Membership in a stable insertion. -/
theorem mem_insertLe {α : Type} (le : α → α → Bool) (x y : α) (l : List α) :
    y ∈ insertLe le x l ↔ y = x ∨ y ∈ l := by
  rw [(insertLe_perm le x l).mem_iff]
  simp

/-- Stable insertion splits the list around the inserted element, with
every element left of it strictly preferred over it. -/
theorem insertLe_shape {α : Type} (le : α → α → Bool) (x : α) (l : List α) :
    ∃ l₁ l₂, insertLe le x l = l₁ ++ x :: l₂ ∧ l = l₁ ++ l₂ ∧
      ∀ y ∈ l₁, le x y = false := by
  induction l with
  | nil => exact ⟨[], [], rfl, rfl, by simp⟩
  | cons y ys ih =>
    by_cases h : le x y = true
    · exact ⟨[], y :: ys, by simp [insertLe, h], rfl, by simp⟩
    · obtain ⟨l₁, l₂, h1, h2, h3⟩ := ih
      refine ⟨y :: l₁, l₂, ?_, by simp [h2], ?_⟩
      · simp only [insertLe, h, if_false, Bool.false_eq_true, List.cons_append, h1]
      · intro z hz
        rcases List.mem_cons.mp hz with rfl | hz
        · simpa using h
        · exact h3 z hz

/-- Filtering at a fixed vote count commutes with stable insertion: the
inserted element lands before every equal-count element. -/
theorem insertLe_filter_votes (x : FmtOption) (l : List FmtOption) (v : Nat) :
    (insertLe votesDescLe x l).filter (fun a => a.votes == v) =
      if x.votes = v then x :: l.filter (fun a => a.votes == v)
      else l.filter (fun a => a.votes == v) := by
  obtain ⟨l₁, l₂, h1, h2, h3⟩ := insertLe_shape votesDescLe x l
  rw [h1, h2, List.filter_append, List.filter_cons, List.filter_append]
  by_cases hv : x.votes = v
  · have hl₁ : l₁.filter (fun a => a.votes == v) = [] := by
      rw [List.filter_eq_nil_iff]
      intro y hy
      have hy' := h3 y hy
      simp only [votesDescLe, decide_eq_false_iff_not, Nat.not_le] at hy'
      simp only [beq_iff_eq]
      omega
    simp [hl₁, hv]
  · have hx : (x.votes == v) = false := by simp [hv]
    simp [hx, hv]

/-- Filtering at a fixed vote count commutes with the stable sort: equal
counts keep their input order. -/
theorem sortLe_filter_votes (l : List FmtOption) (v : Nat) :
    (sortLe votesDescLe l).filter (fun a => a.votes == v) =
      l.filter (fun a => a.votes == v) := by
  induction l with
  | nil => rfl
  | cons x xs ih =>
    show (insertLe votesDescLe x (sortLe votesDescLe xs)).filter _ = _
    rw [insertLe_filter_votes, List.filter_cons]
    by_cases hv : x.votes = v <;> simp [hv, ih]

/-- Stable insertion preserves descending order. -/
theorem insertLe_sorted (x : FmtOption) (l : List FmtOption)
    (h : l.Pairwise (fun a b => b.votes ≤ a.votes)) :
    (insertLe votesDescLe x l).Pairwise (fun a b => b.votes ≤ a.votes) := by
  induction l with
  | nil => simp [insertLe]
  | cons y ys ih =>
    rcases h with _ | ⟨hy, hys⟩
    by_cases hc : votesDescLe x y = true
    · simp only [insertLe, hc, if_true]
      refine List.Pairwise.cons ?_ (List.Pairwise.cons hy hys)
      intro z hz
      have hxy : y.votes ≤ x.votes := by
        simpa [votesDescLe] using hc
      rcases List.mem_cons.mp hz with rfl | hz
      · exact hxy
      · exact Nat.le_trans (hy z hz) hxy
    · simp only [insertLe, hc, if_false, Bool.false_eq_true]
      refine List.Pairwise.cons ?_ (ih hys)
      intro z hz
      rcases (mem_insertLe _ _ _ _).mp hz with rfl | hz
      · have : ¬(y.votes ≤ z.votes) := by
          simpa [votesDescLe] using hc
        omega
      · exact hy z hz

/-- The stable sort yields a descending list. -/
theorem sortLe_sorted (l : List FmtOption) :
    (sortLe votesDescLe l).Pairwise (fun a b => b.votes ≤ a.votes) := by
  induction l with
  | nil => simp [sortLe]
  | cons x xs ih => exact insertLe_sorted x _ ih

/-- `Object.entries` is a permutation of the object's entry list. -/
theorem jsEntries_perm {α : Type} (o : JsObj α) :
    List.Perm (jsEntries o) o := by
  unfold jsEntries
  have hs : ∀ p : String × α, ((jsArrayIndex p.1).isNone : Bool) =
      !(jsArrayIndex p.1).isSome := by
    intro p
    cases jsArrayIndex p.1 <;> rfl
  have h1 : o.filter (fun p => (jsArrayIndex p.1).isNone) =
      o.filter (fun p => !(jsArrayIndex p.1).isSome) :=
    List.filter_congr (fun p _ => hs p)
  rw [h1]
  exact ((sortLe_perm idxLe _).append_right _).trans
    (List.filter_append_perm _ o)

/-- With no array-index-like keys, `Object.entries` is the identity. -/
theorem jsEntries_of_no_idx {α : Type} (o : JsObj α)
    (h : ∀ p ∈ o, jsArrayIndex p.1 = none) : jsEntries o = o := by
  unfold jsEntries
  have h1 : o.filter (fun p => (jsArrayIndex p.1).isSome) = [] := by
    rw [List.filter_eq_nil_iff]
    intro p hp
    simp [h p hp]
  have h2 : o.filter (fun p => (jsArrayIndex p.1).isNone) = o := by
    rw [List.filter_eq_self]
    intro p hp
    simp [h p hp]
  rw [h1, h2]
  rfl

/-- With distinct keys, `Object.entries` preserves reads. -/
theorem jsGet_jsEntries {α : Type} (o : JsObj α)
    (hnd : (o.map Prod.fst).Nodup) (k : String) :
    jsGet (jsEntries o) k = jsGet o k := by
  have hperm := jsEntries_perm o
  have hnd' : ((jsEntries o).map Prod.fst).Nodup :=
    ((hperm.map Prod.fst).nodup_iff).mpr hnd
  cases hk : jsGet o k with
  | some v =>
    exact (jsGet_eq_some_iff_mem _ k v hnd').mpr
      (hperm.mem_iff.mpr ((jsGet_eq_some_iff_mem o k v hnd).mp hk))
  | none =>
    rw [jsGet_eq_none_iff] at hk ⊢
    intro hmem
    exact hk (((hperm.map Prod.fst).mem_iff).mp hmem)

/-- Reading through a value-mapped object. -/
theorem jsGet_map_snd {α β : Type} (o : JsObj α) (g : α → β) (k : String) :
    jsGet (o.map (fun p => (p.1, g p.2))) k = (jsGet o k).map g := by
  induction o with
  | nil => rfl
  | cons p rest ih =>
    obtain ⟨k₀, v₀⟩ := p
    by_cases h : k = k₀
    · subst h
      simp [jsGet_cons]
    · simp only [List.map_cons]
      rw [jsGet_cons, jsGet_cons, if_neg h, if_neg h, ih]

/-! ## The counting loop refines the per-section fold -/

/-- The initialized entry has the shape its section expects. -/
theorem shapeOk_initSection (s : Section) : shapeOk s (initSection s) = true := by
  rcases hty : s.ty with _ | _ | _ <;> simp [initSection, shapeOk, hty]

/-- The per-section step keeps the entry's shape. -/
theorem shapeOk_stepSection (s : Section) (r : SectionRes) (vd : VoteDoc) :
    shapeOk s (stepSection s r vd) = shapeOk s r := by
  rcases hty : s.ty with _ | _ | _ <;> cases r <;>
    simp only [stepSection, hty] <;>
    rcases ha : vd.votes.lookup s.id with _ | ⟨w | l⟩ <;>
    simp only [ha] <;> (repeat' split) <;> simp [shapeOk, hty]

/-- On a well-shaped, crash-free step, the counting loop body writes the
per-section step result at the section's key. -/
theorem countStep_ok (res : JsObj SectionRes) (vd : VoteDoc) (s : Section)
    (r : SectionRes) (hget : jsGet res s.id = some r)
    (hshape : shapeOk s r = true) (hsafe : textSafe s vd = true) :
    countStep res vd s = .ok (jsSet res s.id (stepSection s r vd)) := by
  rcases hty : s.ty with _ | _ | _
  · -- single-select
    cases r with
    | textRes lab rs => simp [shapeOk, hty] at hshape
    | optRes t lab opts =>
      rcases ha : vd.votes.lookup s.id with _ | ⟨w | l⟩
      · have hstep : stepSection s (SectionRes.optRes t lab opts) vd =
            SectionRes.optRes t lab opts := by
          simp [stepSection, hty, ha, truthy]
        rw [hstep, jsSet_self res s.id _ hget]
        simp [countStep, hty, ha, truthy]
      · by_cases hw : w = ""
        · have hstep : stepSection s (SectionRes.optRes t lab opts) vd =
              SectionRes.optRes t lab opts := by
            simp [stepSection, hty, ha, truthy, hw]
          rw [hstep, jsSet_self res s.id _ hget]
          simp [countStep, hty, ha, truthy, hw]
        · simp [countStep, stepSection, hty, ha, truthy, hw, hget]
      · simp [countStep, stepSection, hty, ha, truthy, hget]
  · -- multi-select
    cases r with
    | textRes lab rs => simp [shapeOk, hty] at hshape
    | optRes t lab opts =>
      rcases ha : vd.votes.lookup s.id with _ | ⟨w | l⟩
      · have hstep : stepSection s (SectionRes.optRes t lab opts) vd =
            SectionRes.optRes t lab opts := by
          simp [stepSection, hty, ha]
        rw [hstep, jsSet_self res s.id _ hget]
        simp [countStep, hty, ha]
      · have hstep : stepSection s (SectionRes.optRes t lab opts) vd =
            SectionRes.optRes t lab opts := by
          simp [stepSection, hty, ha]
        rw [hstep, jsSet_self res s.id _ hget]
        simp [countStep, hty, ha]
      · simp [countStep, stepSection, hty, ha, hget]
  · -- text-input
    cases r with
    | optRes t lab opts => simp [shapeOk, hty] at hshape
    | textRes lab rs =>
      rcases ha : vd.votes.lookup s.id with _ | ⟨w | l⟩
      · have hstep : stepSection s (SectionRes.textRes lab rs) vd =
            SectionRes.textRes lab rs := by
          simp [stepSection, hty, ha]
        rw [hstep, jsSet_self res s.id _ hget]
        simp [countStep, hty, ha]
      · by_cases hw : w = ""
        · have hstep : stepSection s (SectionRes.textRes lab rs) vd =
              SectionRes.textRes lab rs := by
            simp [stepSection, hty, ha, hw]
          rw [hstep, jsSet_self res s.id _ hget]
          simp [countStep, hty, ha, hw]
        · by_cases htr : w.trim = ""
          · have hstep : stepSection s (SectionRes.textRes lab rs) vd =
                SectionRes.textRes lab rs := by
              simp [stepSection, hty, ha, hw, htr]
            rw [hstep, jsSet_self res s.id _ hget]
            simp [countStep, hty, ha, hw, htr]
          · simp [countStep, stepSection, hty, ha, hw, htr, hget]
      · simp [textSafe, hty, ha] at hsafe

/-- Folding the loop body over the sections of one vote: with distinct
section ids, well-shaped entries and no text/array conflict, the fold
succeeds, each section's entry advances by its own step, and all other
keys are untouched. -/
theorem foldlM_countStep_ok (sections : List Section) (vd : VoteDoc) :
    ∀ (res : JsObj SectionRes) (f : Section → SectionRes),
    (sections.map (·.id)).Nodup →
    (∀ s ∈ sections, jsGet res s.id = some (f s) ∧ shapeOk s (f s) = true) →
    (∀ s ∈ sections, textSafe s vd = true) →
    ∃ res', sections.foldlM (fun r' s => countStep r' vd s) res = .ok res' ∧
      (∀ s ∈ sections, jsGet res' s.id = some (stepSection s (f s) vd)) ∧
      (∀ k, k ∉ sections.map (·.id) → jsGet res' k = jsGet res k) ∧
      res'.map Prod.fst = res.map Prod.fst := by
  induction sections with
  | nil =>
    intro res f _ _ _
    exact ⟨res, rfl, by simp, by simp, rfl⟩
  | cons t rest ih =>
    intro res f hnd hcov hsafe
    simp only [List.map_cons, List.nodup_cons] at hnd
    obtain ⟨hg, hs⟩ := hcov t (by simp)
    have h1 : countStep res vd t = .ok (jsSet res t.id (stepSection t (f t) vd)) :=
      countStep_ok res vd t (f t) hg hs (hsafe t (by simp))
    have hkeys1 : (jsSet res t.id (stepSection t (f t) vd)).map Prod.fst =
        res.map Prod.fst :=
      jsSet_keys_of_mem res t.id _ ((jsGet_isSome_iff res t.id).mp (by simp [hg]))
    have hcov1 : ∀ s ∈ rest,
        jsGet (jsSet res t.id (stepSection t (f t) vd)) s.id = some (f s) ∧
        shapeOk s (f s) = true := by
      intro s hsmem
      have hne : s.id ≠ t.id := by
        intro he
        exact hnd.1 (List.mem_map.mpr ⟨s, hsmem, he⟩)
      constructor
      · rw [jsGet_jsSet_ne res t.id s.id _ hne]
        exact (hcov s (by simp [hsmem])).1
      · exact (hcov s (by simp [hsmem])).2
    obtain ⟨res', hok, hget', hother, hkeys⟩ :=
      ih _ f hnd.2 hcov1 (fun s hsm => hsafe s (by simp [hsm]))
    refine ⟨res', ?_, ?_, ?_, hkeys.trans hkeys1⟩
    · rw [List.foldlM_cons, h1]
      simpa using hok
    · intro s hsmem
      rcases List.mem_cons.mp hsmem with rfl | hsmem
      · rw [hother s.id hnd.1, jsGet_jsSet_self]
      · exact hget' s hsmem
    · intro k hk
      simp only [List.map_cons, List.mem_cons, not_or] at hk
      rw [hother k hk.2, jsGet_jsSet_ne res t.id k _ hk.1]

/-- The whole counting loop: with distinct section ids, a well-shaped
results object and no text/array conflicts, it succeeds and each
section's entry is the fold of its own step over the votes. -/
theorem countVotes_ok (sections : List Section) (votes : List VoteDoc)
    (hnd : (sections.map (·.id)).Nodup) :
    ∀ (res : JsObj SectionRes) (f : Section → SectionRes),
    (∀ s ∈ sections, jsGet res s.id = some (f s) ∧ shapeOk s (f s) = true) →
    (∀ vd ∈ votes, ∀ s ∈ sections, textSafe s vd = true) →
    ∃ res', countVotes sections votes res = .ok res' ∧
      (∀ s ∈ sections, jsGet res' s.id = some (votes.foldl (stepSection s) (f s))) ∧
      (∀ k, k ∉ sections.map (·.id) → jsGet res' k = jsGet res k) ∧
      res'.map Prod.fst = res.map Prod.fst := by
  induction votes with
  | nil =>
    intro res f hcov _
    exact ⟨res, rfl, fun s hs => by simp [(hcov s hs).1], by simp, rfl⟩
  | cons vd vs ih =>
    intro res f hcov hsafe
    obtain ⟨res1, hok1, hget1, hother1, hkeys1⟩ :=
      foldlM_countStep_ok sections vd res f hnd hcov
        (fun s hs => hsafe vd (by simp) s hs)
    have hcov1 : ∀ s ∈ sections,
        jsGet res1 s.id = some (stepSection s (f s) vd) ∧
        shapeOk s (stepSection s (f s) vd) = true := by
      intro s hs
      exact ⟨hget1 s hs, by rw [shapeOk_stepSection]; exact (hcov s hs).2⟩
    obtain ⟨res', hok, hget', hother, hkeys⟩ :=
      ih res1 (fun s => stepSection s (f s) vd) hcov1
        (fun v hv s hs => hsafe v (by simp [hv]) s hs)
    refine ⟨res', ?_, ?_, ?_, hkeys.trans hkeys1⟩
    · unfold countVotes at hok ⊢
      rw [List.foldlM_cons, hok1]
      simpa using hok
    · intro s hs
      rw [hget' s hs]
      rw [List.foldl_cons]
    · intro k hk
      rw [hother k hk, hother1 k hk]

/-- The initialization fold leaves absent section ids unread. -/
theorem initFold_get_not_mem (sections : List Section) :
    ∀ (acc : JsObj SectionRes) (k : String),
    (∀ s ∈ sections, s.id ≠ k) →
    jsGet (sections.foldl (fun r s => jsSet r s.id (initSection s)) acc) k =
      jsGet acc k := by
  induction sections with
  | nil => intro acc k _; rfl
  | cons t rest ih =>
    intro acc k h
    rw [List.foldl_cons, ih _ k (fun s hs => h s (by simp [hs]))]
    exact jsGet_jsSet_ne acc t.id k _ (Ne.symm (h t (by simp)))

/-- With distinct ids, the initialization fold installs each section's
initial entry. -/
theorem initFold_get (sections : List Section) :
    ∀ (acc : JsObj SectionRes),
    (sections.map (·.id)).Nodup →
    ∀ s ∈ sections,
    jsGet (sections.foldl (fun r s => jsSet r s.id (initSection s)) acc) s.id =
      some (initSection s) := by
  induction sections with
  | nil => intro acc _ s hs; cases hs
  | cons t rest ih =>
    intro acc hnd s hs
    simp only [List.map_cons, List.nodup_cons] at hnd
    rw [List.foldl_cons]
    rcases List.mem_cons.mp hs with rfl | hs
    · have hfr : ∀ u ∈ rest, u.id ≠ s.id := by
        intro u hu he
        exact hnd.1 (List.mem_map.mpr ⟨u, hu, he⟩)
      rw [initFold_get_not_mem rest _ s.id hfr, jsGet_jsSet_self]
    · exact ih _ hnd.2 s hs

/-- With distinct ids and fresh keys, the initialization fold appends
the section ids to the key list in order. -/
theorem initFold_keys (sections : List Section) :
    ∀ (acc : JsObj SectionRes),
    (sections.map (·.id)).Nodup →
    (∀ s ∈ sections, s.id ∉ acc.map Prod.fst) →
    (sections.foldl (fun r s => jsSet r s.id (initSection s)) acc).map Prod.fst =
      acc.map Prod.fst ++ sections.map (·.id) := by
  induction sections with
  | nil => intro acc _ _; simp
  | cons t rest ih =>
    intro acc hnd hfresh
    simp only [List.map_cons, List.nodup_cons] at hnd
    rw [List.foldl_cons, jsSet_of_not_mem acc t.id _ (hfresh t (by simp))]
    rw [ih _ hnd.2 ?_]
    · simp
    · intro s hs
      simp only [List.map_append, List.map_cons]
      intro hmem
      rcases List.mem_append.mp hmem with hmem | hmem
      · exact hfresh s (by simp [hs]) hmem
      · simp only [List.map_nil, List.mem_cons, List.not_mem_nil] at hmem
        rcases hmem with hmem | hmem
        · exact hnd.1 (List.mem_map.mpr ⟨s, hs, hmem⟩)
        · exact hmem

/-- With distinct ids, the initial results object reads each section's
initial entry. -/
theorem initResults_get (sections : List Section)
    (hnd : (sections.map (·.id)).Nodup) (s : Section) (hs : s ∈ sections) :
    jsGet (initResults sections) s.id = some (initSection s) :=
  initFold_get sections [] hnd s hs

/-- With distinct ids, the initial results object's keys are the section
ids in order. -/
theorem initResults_keys (sections : List Section)
    (hnd : (sections.map (·.id)).Nodup) :
    (initResults sections).map Prod.fst = sections.map (·.id) := by
  have h := initFold_keys sections [] hnd (by simp)
  simpa using h

/-! ## The per-section tally in closed form -/

/-- Incrementing any key: a present key's count grows by the indicator. -/
theorem jsGet_jsIncr (opts : JsObj OptCount) (k o : String) (c : OptCount)
    (hget : jsGet opts o = some c) :
    jsGet (jsIncr opts k) o =
      some ⟨c.votes + (if k = o then 1 else 0), c.imageUrl⟩ := by
  by_cases hk : k = o
  · subst hk
    simpa using jsGet_jsIncr_self opts k c hget
  · rw [jsGet_jsIncr_ne opts k o (Ne.symm hk), hget]
    simp [hk]

/-- One per-section step on an options entry: same constructor, same
keys, and each present option's count grows by the vote's
contribution. -/
theorem stepSection_optRes_full (s : Section) (t : SectionTy) (lab : String)
    (opts : JsObj OptCount) (vd : VoteDoc) :
    ∃ opts', stepSection s (.optRes t lab opts) vd = .optRes t lab opts' ∧
      opts'.map Prod.fst = opts.map Prod.fst ∧
      ∀ o c, jsGet opts o = some c →
        jsGet opts' o = some ⟨c.votes + contrib s o vd, c.imageUrl⟩ := by
  rcases hty : s.ty with _ | _ | _
  · rcases ha : vd.votes.lookup s.id with _ | ⟨w | l⟩
    · exact ⟨opts, by simp [stepSection, hty, ha, truthy], rfl,
        fun o c h => by simp [contrib, hty, ha, h]⟩
    · by_cases hw : w = ""
      · subst hw
        exact ⟨opts, by simp [stepSection, hty, ha, truthy], rfl,
          fun o c h => by simp [contrib, hty, ha, truthy, h]⟩
      · refine ⟨jsIncr opts w, ?_, jsIncr_keys opts w, ?_⟩
        · simp [stepSection, hty, ha, truthy, hw, keyOfAnswer]
        · intro o c h
          rw [jsGet_jsIncr opts w o c h]
          simp [contrib, hty, ha, truthy, hw, keyOfAnswer]
    · refine ⟨jsIncr opts (String.intercalate "," l), ?_, jsIncr_keys _ _, ?_⟩
      · simp [stepSection, hty, ha, truthy, keyOfAnswer]
      · intro o c h
        rw [jsGet_jsIncr _ _ o c h]
        simp [contrib, hty, ha, truthy, keyOfAnswer]
  · rcases ha : vd.votes.lookup s.id with _ | ⟨w | l⟩
    · exact ⟨opts, by simp [stepSection, hty, ha], rfl,
        fun o c h => by simp [contrib, hty, ha, h]⟩
    · exact ⟨opts, by simp [stepSection, hty, ha], rfl,
        fun o c h => by simp [contrib, hty, ha, h]⟩
    · refine ⟨l.foldl jsIncr opts, by simp [stepSection, hty, ha],
        foldl_jsIncr_keys l opts, ?_⟩
      intro o c h
      rw [jsGet_foldl_jsIncr l opts o c h]
      simp [contrib, hty, ha]
  · exact ⟨opts, by simp [stepSection, hty], rfl,
      fun o c h => by simp [contrib, hty, h]⟩

/-- Folding the per-section step over the votes accumulates each present
option's total contribution. -/
theorem foldl_stepSection_optRes (s : Section) (votes : List VoteDoc) :
    ∀ (t : SectionTy) (lab : String) (opts : JsObj OptCount),
    ∃ opts', votes.foldl (stepSection s) (.optRes t lab opts) = .optRes t lab opts' ∧
      opts'.map Prod.fst = opts.map Prod.fst ∧
      ∀ o c, jsGet opts o = some c →
        jsGet opts' o =
          some ⟨c.votes + (votes.map (contrib s o)).sum, c.imageUrl⟩ := by
  induction votes with
  | nil =>
    intro t lab opts
    exact ⟨opts, rfl, rfl, fun o c h => by simpa using h⟩
  | cons vd vs ih =>
    intro t lab opts
    obtain ⟨opts1, h1, hk1, hg1⟩ := stepSection_optRes_full s t lab opts vd
    obtain ⟨opts', h2, hk2, hg2⟩ := ih t lab opts1
    refine ⟨opts', ?_, hk2.trans hk1, ?_⟩
    · rw [List.foldl_cons, h1, h2]
    · intro o c h
      rw [hg2 o _ (hg1 o c h)]
      simp [Nat.add_assoc]

/-- The initialized entry of a select section. -/
theorem initSection_optRes (s : Section) (hty : s.ty ≠ .textInput) :
    initSection s = .optRes s.ty s.label
      (s.options.foldl (fun acc opt => jsSet acc opt.name ⟨0, opt.imageUrl⟩) []) := by
  rcases h : s.ty with _ | _ | _
  · simp [initSection, h]
  · simp [initSection, h]
  · exact absurd h hty

/-- Building an object over fresh, distinct keys appends the entries in
order. -/
theorem foldl_jsSet_opts_fresh (opts : List Opt) :
    ∀ (acc : JsObj OptCount),
    (opts.map (·.name)).Nodup →
    (∀ p ∈ opts, p.name ∉ acc.map Prod.fst) →
    opts.foldl (fun a opt => jsSet a opt.name ⟨0, opt.imageUrl⟩) acc =
      acc ++ opts.map (fun opt => (opt.name, ⟨0, opt.imageUrl⟩)) := by
  induction opts with
  | nil => intro acc _ _; simp
  | cons p rest ih =>
    intro acc hnd hfresh
    simp only [List.map_cons, List.nodup_cons] at hnd
    rw [List.foldl_cons, jsSet_of_not_mem acc p.name _ (hfresh p (by simp))]
    rw [ih _ hnd.2 ?_]
    · simp
    · intro q hq
      simp only [List.map_append, List.map_cons, List.map_nil]
      intro hmem
      rcases List.mem_append.mp hmem with hmem | hmem
      · exact hfresh q (by simp [hq]) hmem
      · simp only [List.mem_singleton] at hmem
        exact hnd.1 (List.mem_map.mpr ⟨q, hq, hmem⟩)

/-- With distinct option names, the initial options object is the
definition-order list of zero counts. -/
theorem initSection_opts (s : Section) (hty : s.ty ≠ .textInput)
    (hnd : (optionNames s).Nodup) :
    optsOf (initSection s) =
      s.options.map (fun opt => (opt.name, ⟨0, opt.imageUrl⟩)) := by
  rw [initSection_optRes s hty]
  simp only [optsOf]
  simpa using foldl_jsSet_opts_fresh s.options [] hnd (by simp)

/-- Reading a generated object at a generating option's name. -/
theorem jsGet_map_options {β : Type} (opts : List Opt) (F : Opt → β)
    (hnd : (opts.map (·.name)).Nodup) (p : Opt) (hp : p ∈ opts) :
    jsGet (opts.map (fun o => (o.name, F o))) p.name = some (F p) := by
  refine (jsGet_eq_some_iff_mem _ _ _ ?_).mpr (List.mem_map.mpr ⟨p, hp, rfl⟩)
  rw [List.map_map]
  exact hnd

/-- The per-section tally of a select section, in closed form: the
definition-order option list, each with its total contribution count
and its image URL. -/
theorem sectionTally_optRes (s : Section) (votes : List VoteDoc)
    (hty : s.ty ≠ .textInput) (hnd : (optionNames s).Nodup) :
    sectionTally s votes = .optRes s.ty s.label
      (s.options.map (fun opt =>
        (opt.name, ⟨(votes.map (contrib s opt.name)).sum, opt.imageUrl⟩))) := by
  unfold sectionTally
  have hio := initSection_opts s hty hnd
  rw [initSection_optRes s hty] at hio ⊢
  simp only [optsOf] at hio
  rw [hio]
  obtain ⟨opts', h1, hk, hg⟩ := foldl_stepSection_optRes s votes s.ty s.label
    (s.options.map (fun opt => (opt.name, ⟨0, opt.imageUrl⟩)))
  rw [h1]
  congr 1
  have hns : opts'.map Prod.fst = s.options.map (·.name) := by
    rw [hk, List.map_map]
    rfl
  have hnd' : (opts'.map Prod.fst).Nodup := by
    rw [hns]
    exact hnd
  have hself := jsObj_eq_map_keys opts'
    (fun k => (jsGet opts' k).getD ⟨0, none⟩) hnd' ?hgd
  case hgd =>
    intro p hp
    simp [(jsGet_eq_some_iff_mem opts' p.1 p.2 hnd').mpr hp]
  rw [hself, hns, List.map_map]
  refine List.map_congr_left ?_
  intro opt hopt
  have h0 : jsGet (s.options.map (fun o => (o.name, (⟨0, o.imageUrl⟩ : OptCount))))
      opt.name = some ⟨0, opt.imageUrl⟩ := jsGet_map_options s.options _ hnd opt hopt
  have := hg opt.name ⟨0, opt.imageUrl⟩ h0
  simp only [Function.comp]
  rw [this]
  simp

/-- The results endpoint, bridged to the per-section tally: with
distinct section ids and no stored array answer on a text-input
section, the request succeeds, reports the number of vote documents,
and each section's formatted entry is the formatting of its own
per-section tally. -/
theorem getResults_ok (sessions : List VotingSession) (votes : List VoteDoc)
    (sid : String) (session : VotingSession)
    (hfind : sessions.find? (fun s => s.id == sid) = some session)
    (hnd : (session.sections.map (·.id)).Nodup)
    (hsafe : ∀ vd ∈ votes.filter (fun v => v.votingSessionId == sid),
      ∀ s ∈ session.sections, textSafe s vd = true) :
    ∃ resp, getResults sessions votes sid = .ok (some resp) ∧
      resp.active = session.isActive ∧
      resp.title = session.title ∧
      resp.totalVotes = (votes.filter (fun v => v.votingSessionId == sid)).length ∧
      ∀ s ∈ session.sections, jsGet resp.results s.id =
        some (fmtSection (sectionTally s
          (votes.filter (fun v => v.votingSessionId == sid)))) := by
  have hcov : ∀ s ∈ session.sections,
      jsGet (initResults session.sections) s.id = some (initSection s) ∧
      shapeOk s (initSection s) = true :=
    fun s hs => ⟨initResults_get _ hnd s hs, shapeOk_initSection s⟩
  obtain ⟨res', hok, hget', hother, hkeys⟩ :=
    countVotes_ok session.sections (votes.filter (fun v => v.votingSessionId == sid))
      hnd (initResults session.sections) initSection hcov hsafe
  refine ⟨{ active := session.isActive, title := session.title,
            results := formatResults res',
            totalVotes := (votes.filter (fun v => v.votingSessionId == sid)).length },
          ?_, rfl, rfl, rfl, ?_⟩
  · unfold getResults
    rw [hfind]
    simp only [hok]
  · intro s hs
    have hkeys' : (res'.map Prod.fst).Nodup := by
      rw [hkeys, initResults_keys _ hnd]
      exact hnd
    show jsGet (formatResults res') s.id = _
    unfold formatResults
    rw [jsGet_map_snd, jsGet_jsEntries res' hkeys' s.id, hget' s hs]
    rfl

/-! ## C5: formatted option order -/

/-- C5 counterexample: option names that are canonical array-index
strings are enumerated numerically by `Object.entries` before the sort
runs, so a section defining options in the order 2, 1 with equal (zero)
counts formats them as 1, 2 — the original definition order is not
preserved among ties. -/
theorem c5_numeric_names_reorder :
    getResults [numSession] [] "s2" = .ok (some
      { active := true, title := "T",
        results := [("n", .optRes .singleSelect "Num"
          [⟨"1", 0, none⟩, ⟨"2", 0, none⟩])],
        totalVotes := 0 }) ∧
    numSec.options.map (·.name) = ["2", "1"] := by
  exact ⟨rfl, rfl⟩

/-- C5 amended: for a select section with distinct option names, none of
which is an array-index string, the formatted output is the stable
descending sort of the definition-order count list: it is sorted by
descending votes, it is a permutation of that list, and the options
holding any fixed vote count appear in definition order. -/
theorem c5_sorted_stable_tiebreak (s : Section) (votes : List VoteDoc)
    (hty : s.ty ≠ .textInput) (hnd : (optionNames s).Nodup)
    (hnoidx : ∀ n ∈ optionNames s, jsArrayIndex n = none) :
    fmtSection (sectionTally s votes) = .optRes s.ty s.label
      (sortLe votesDescLe (s.options.map (fun opt =>
        ⟨opt.name, (votes.map (contrib s opt.name)).sum, opt.imageUrl⟩))) ∧
    (fmtOptions (fmtSection (sectionTally s votes))).Pairwise
      (fun a b => b.votes ≤ a.votes) ∧
    (∀ v, (fmtOptions (fmtSection (sectionTally s votes))).filter
        (fun a => a.votes == v) =
      (s.options.map (fun opt =>
        (⟨opt.name, (votes.map (contrib s opt.name)).sum, opt.imageUrl⟩ :
          FmtOption))).filter (fun a => a.votes == v)) ∧
    List.Perm (fmtOptions (fmtSection (sectionTally s votes)))
      (s.options.map (fun opt =>
        ⟨opt.name, (votes.map (contrib s opt.name)).sum, opt.imageUrl⟩)) := by
  have h1 := sectionTally_optRes s votes hty hnd
  have hobj : jsEntries (s.options.map (fun opt =>
      (opt.name, (⟨(votes.map (contrib s opt.name)).sum, opt.imageUrl⟩ : OptCount)))) =
      s.options.map (fun opt =>
        (opt.name, ⟨(votes.map (contrib s opt.name)).sum, opt.imageUrl⟩)) := by
    apply jsEntries_of_no_idx
    intro p hp
    obtain ⟨opt, hopt, rfl⟩ := List.mem_map.mp hp
    exact hnoidx opt.name (List.mem_map.mpr ⟨opt, hopt, rfl⟩)
  have hfmt : fmtSection (sectionTally s votes) = .optRes s.ty s.label
      (sortLe votesDescLe (s.options.map (fun opt =>
        ⟨opt.name, (votes.map (contrib s opt.name)).sum, opt.imageUrl⟩))) := by
    rw [h1]
    simp only [fmtSection]
    rw [hobj, List.map_map]
    rfl
  refine ⟨hfmt, ?_, ?_, ?_⟩
  · rw [hfmt]
    simpa [fmtOptions] using sortLe_sorted _
  · intro v
    rw [hfmt]
    simpa [fmtOptions] using sortLe_filter_votes _ v
  · rw [hfmt]
    simpa [fmtOptions] using sortLe_perm votesDescLe _

/-- C5 witness: the amended theorem on the spec scenario — host options
A and B, one vote each: the tie keeps definition order. -/
theorem c5_sorted_stable_tiebreak_wit :
    fmtOptions (fmtSection (sectionTally hostSec [vote1, vote2])) =
      [⟨"A", 1, none⟩, ⟨"B", 1, none⟩] := by
  have h := c5_sorted_stable_tiebreak hostSec [vote1, vote2]
    (by decide) (by decide) (by decide)
  rw [h.1]
  decide

/-! ## C6: totals and per-option bounds -/

/-- The formatted options of a select section's tally are a permutation
of the definition-order option list with each option's total
contribution count. -/
theorem fmtSection_tally_perm (s : Section) (fv : List VoteDoc)
    (hty : s.ty ≠ .textInput) (hnd : (optionNames s).Nodup) :
    ∃ fl, fmtSection (sectionTally s fv) = .optRes s.ty s.label fl ∧
      List.Perm fl (s.options.map (fun opt =>
        FmtOption.mk opt.name ((fv.map (contrib s opt.name)).sum) opt.imageUrl)) := by
  rw [sectionTally_optRes s fv hty hnd]
  refine ⟨_, rfl, ?_⟩
  have h1 := sortLe_perm votesDescLe
    ((jsEntries (s.options.map (fun opt =>
      (opt.name, (⟨(fv.map (contrib s opt.name)).sum, opt.imageUrl⟩ : OptCount))))).map
      (fun p => (⟨p.1, p.2.votes, p.2.imageUrl⟩ : FmtOption)))
  have h2 := (jsEntries_perm (s.options.map (fun opt =>
      (opt.name, (⟨(fv.map (contrib s opt.name)).sum, opt.imageUrl⟩ : OptCount))))).map
      (fun p => (⟨p.1, p.2.votes, p.2.imageUrl⟩ : FmtOption))
  have h3 : ((s.options.map (fun opt =>
      (opt.name, (⟨(fv.map (contrib s opt.name)).sum, opt.imageUrl⟩ : OptCount)))).map
      (fun p => (⟨p.1, p.2.votes, p.2.imageUrl⟩ : FmtOption))) =
      s.options.map (fun opt =>
        FmtOption.mk opt.name ((fv.map (contrib s opt.name)).sum) opt.imageUrl) := by
    rw [List.map_map]
    rfl
  rw [h3] at h2
  exact h1.trans h2

/-- Sums distribute over pointwise addition of mapped values. -/
theorem sum_map_add {α : Type} (l : List α) (f g : α → Nat) :
    (l.map (fun x => f x + g x)).sum = (l.map f).sum + (l.map g).sum := by
  induction l with
  | nil => rfl
  | cons x xs ih =>
    simp only [List.map_cons, List.sum_cons, ih]
    omega

/-- Double sums commute. -/
theorem sum_map_swap {α β : Type} (l : List α) (m : List β) (f : α → β → Nat) :
    (l.map (fun a => (m.map (f a)).sum)).sum =
      (m.map (fun b => (l.map (fun a => f a b)).sum)).sum := by
  induction l with
  | nil => simp
  | cons x xs ih =>
    simp only [List.map_cons, List.sum_cons, ih]
    rw [← sum_map_add]

/-- An indicator for a fixed value sums to at most one over distinct
keys. -/
theorem sum_indicator_le_one (ns : List String) (k : String) (hnd : ns.Nodup) :
    (ns.map (fun n => if k == n then (1 : Nat) else 0)).sum ≤ 1 := by
  induction ns with
  | nil => simp
  | cons n rest ih =>
    simp only [List.nodup_cons] at hnd
    by_cases hk : k = n
    · subst hk
      have h0 : (rest.map (fun n => if k = n then (1 : Nat) else 0)).sum = 0 := by
        apply List.sum_eq_zero
        intro x hx
        obtain ⟨m, hm, rfl⟩ := List.mem_map.mp hx
        have hne : ¬(k = m) := fun he => hnd.1 (he ▸ hm)
        simp [hne]
      simp [h0]
    · have hb : (k == n) = false := by simp [hk]
      simp only [List.map_cons, List.sum_cons, hb, Bool.false_eq_true, if_false]
      simpa using ih hnd.2

/-- Counts of distinct values in one list sum to at most its length. -/
theorem sum_count_le_length (ns : List String) (l : List String)
    (hnd : ns.Nodup) :
    (ns.map (fun n => l.count n)).sum ≤ l.length := by
  induction l with
  | nil => simp
  | cons x xs ih =>
    have hcong : ns.map (fun n => (x :: xs).count n) =
        ns.map (fun n => xs.count n + if x == n then 1 else 0) :=
      List.map_congr_left (fun n _ => List.count_cons n x xs)
    rw [hcong, sum_map_add, List.length_cons]
    have := sum_indicator_le_one ns x hnd
    omega

/-- A sum of values bounded by `c` is at most length times `c`. -/
theorem sum_le_length_mul {α : Type} (l : List α) (g : α → Nat) (c : Nat)
    (h : ∀ x ∈ l, g x ≤ c) : (l.map g).sum ≤ l.length * c := by
  induction l with
  | nil => simp
  | cons x xs ih =>
    simp only [List.map_cons, List.sum_cons, List.length_cons]
    have h1 := ih (fun y hy => h y (by simp [hy]))
    have h2 := h x (by simp)
    rw [Nat.succ_mul]
    omega

/-- A sum of zero-or-one values counts the positive positions. -/
theorem sum_eq_count_pos {α : Type} (l : List α) (g : α → Nat)
    (h : ∀ x ∈ l, g x ≤ 1) :
    (l.map g).sum = (l.filter (fun x => decide (0 < g x))).length := by
  induction l with
  | nil => rfl
  | cons x xs ih =>
    simp only [List.map_cons, List.sum_cons, List.filter_cons]
    have hx := h x (by simp)
    have ih' := ih (fun y hy => h y (by simp [hy]))
    rcases Nat.le_one_iff_eq_zero_or_eq_one.mp hx with h0 | h1
    · simp [h0, ih']
    · simp [h1, ih', Nat.add_comm]

/-- A passing validation run passes every section individually. -/
theorem validate_none_each (sections : List Section) (votes : VotesMap)
    (h : validate sections votes = none) :
    ∀ s ∈ sections, checkSection s (votes.lookup s.id) = none := by
  induction sections with
  | nil => intro s hs; cases hs
  | cons t rest ih =>
    unfold validate at h
    rcases hc : checkSection t (votes.lookup t.id) with _ | m
    · rw [hc] at h
      intro s hs
      rcases List.mem_cons.mp hs with rfl | hs
      · exact hc
      · exact ih h s hs
    · rw [hc] at h
      cases h

/-- A validated multi-select list respects the maximum length. -/
theorem multi_len_le_max (s : Section) (l : List String)
    (hty : s.ty = .multiSelect)
    (hc : checkSection s (some (.arr l)) = none) :
    l.length ≤ s.maxSelections := by
  rcases (checkSection_multiSelect_none_iff s (.arr l) hty).mp hc with
    ⟨he, -⟩ | ⟨l', he, -, -, hmax, -⟩
  · cases he
  · injection he with he
    subst he
    exact hmax

/-- A single-select vote contributes at most one across distinct option
names. -/
theorem contribSum_single_le (s : Section) (vd : VoteDoc)
    (hty : s.ty = .singleSelect) (hnd : (optionNames s).Nodup) :
    ((optionNames s).map (fun n => contrib s n vd)).sum ≤ 1 := by
  rcases ha : vd.votes.lookup s.id with _ | a
  · have h0 : ((optionNames s).map (fun n => contrib s n vd)).sum = 0 := by
      apply List.sum_eq_zero
      intro x hx
      obtain ⟨n, hn, rfl⟩ := List.mem_map.mp hx
      simp [contrib, hty, ha]
    omega
  · by_cases htr : truthy (some a) = true
    · have hcong : (optionNames s).map (fun n => contrib s n vd) =
          (optionNames s).map (fun n => if keyOfAnswer a == n then 1 else 0) := by
        apply List.map_congr_left
        intro n _
        simp [contrib, hty, ha, htr]
      rw [hcong]
      exact sum_indicator_le_one _ _ hnd
    · have h0 : ((optionNames s).map (fun n => contrib s n vd)).sum = 0 := by
        apply List.sum_eq_zero
        intro x hx
        obtain ⟨n, hn, rfl⟩ := List.mem_map.mp hx
        simp [contrib, hty, ha, htr]
      omega

/-- A validated vote contributes at most `maxSelections` (multi-select)
or 1 (single-select) across a section's distinct option names. -/
theorem perVote_cap (s : Section) (vd : VoteDoc)
    (hnd : (optionNames s).Nodup)
    (hc : checkSection s (vd.votes.lookup s.id) = none) :
    ((optionNames s).map (fun n => contrib s n vd)).sum ≤
      (if s.ty = .multiSelect then s.maxSelections else 1) := by
  rcases hty : s.ty with _ | _ | _
  · have h1 := contribSum_single_le s vd hty hnd
    simpa using h1
  · simp only [if_pos rfl]
    rcases ha : vd.votes.lookup s.id with _ | ⟨w | l⟩
    · have h0 : ((optionNames s).map (fun n => contrib s n vd)).sum = 0 := by
        apply List.sum_eq_zero
        intro x hx
        obtain ⟨n, hn, rfl⟩ := List.mem_map.mp hx
        simp [contrib, hty, ha]
      omega
    · have h0 : ((optionNames s).map (fun n => contrib s n vd)).sum = 0 := by
        apply List.sum_eq_zero
        intro x hx
        obtain ⟨n, hn, rfl⟩ := List.mem_map.mp hx
        simp [contrib, hty, ha]
      omega
    · have hlen : l.length ≤ s.maxSelections := by
        apply multi_len_le_max s l hty
        rw [← ha]
        exact hc
      have hcong : (optionNames s).map (fun n => contrib s n vd) =
          (optionNames s).map (fun n => l.count n) := by
        apply List.map_congr_left
        intro n _
        simp [contrib, hty, ha]
      rw [hcong]
      exact Nat.le_trans (sum_count_le_length _ l hnd) hlen
  · have h0 : ((optionNames s).map (fun n => contrib s n vd)).sum = 0 := by
      apply List.sum_eq_zero
      intro x hx
      obtain ⟨n, hn, rfl⟩ := List.mem_map.mp hx
      simp [contrib, hty]
    simp [h0]

/-- The displayed sum for a select section equals the double sum of
contributions. -/
theorem sumVotes_fmt_tally (s : Section) (fv : List VoteDoc)
    (hty : s.ty ≠ .textInput) (hnd : (optionNames s).Nodup) :
    sumVotes (fmtOptions (fmtSection (sectionTally s fv))) =
      (fv.map (fun vd => ((optionNames s).map (fun n => contrib s n vd)).sum)).sum := by
  obtain ⟨fl, hfl, hperm⟩ := fmtSection_tally_perm s fv hty hnd
  rw [hfl]
  simp only [fmtOptions, sumVotes]
  rw [(hperm.map (·.votes)).sum_eq, List.map_map]
  have h1 : (s.options.map ((fun x => x.votes) ∘ (fun opt =>
      FmtOption.mk opt.name ((fv.map (contrib s opt.name)).sum) opt.imageUrl))) =
      s.options.map (fun opt => (fv.map (fun vd => contrib s opt.name vd)).sum) := rfl
  rw [h1, sum_map_swap]
  simp only [optionNames, List.map_map]
  rfl

/-- C6: the reported `totalVotes` is the number of vote documents
considered; for each select section the displayed counts sum to at most
`totalVotes × maxSelections` (multi-select) or `totalVotes × 1`
(single-select); and an option to which every vote contributes at most
once displays exactly the number of votes containing it. -/
theorem c6_totals_and_bounds (sessions : List VotingSession)
    (votes : List VoteDoc) (sid : String) (session : VotingSession)
    (hfind : sessions.find? (fun s => s.id == sid) = some session)
    (hnd : (session.sections.map (·.id)).Nodup)
    (hnames : ∀ s ∈ session.sections, (optionNames s).Nodup)
    (hsafe : ∀ vd ∈ votes.filter (fun v => v.votingSessionId == sid),
      ∀ s ∈ session.sections, textSafe s vd = true)
    (hval : ∀ vd ∈ votes.filter (fun v => v.votingSessionId == sid),
      validate session.sections vd.votes = none) :
    ∃ resp, getResults sessions votes sid = .ok (some resp) ∧
      resp.totalVotes = (votes.filter (fun v => v.votingSessionId == sid)).length ∧
      ∀ s ∈ session.sections, s.ty ≠ .textInput →
        ∃ fl, jsGet resp.results s.id = some (.optRes s.ty s.label fl) ∧
          sumVotes fl ≤ resp.totalVotes *
            (if s.ty = .multiSelect then s.maxSelections else 1) ∧
          ∀ opt ∈ s.options,
            (∀ vd ∈ votes.filter (fun v => v.votingSessionId == sid),
              contrib s opt.name vd ≤ 1) →
            FmtOption.mk opt.name
              (((votes.filter (fun v => v.votingSessionId == sid)).filter
                (fun vd => decide (0 < contrib s opt.name vd))).length)
              opt.imageUrl ∈ fl := by
  obtain ⟨resp, hok, hact, htit, htot, hres⟩ :=
    getResults_ok sessions votes sid session hfind hnd hsafe
  refine ⟨resp, hok, htot, ?_⟩
  intro s hs hsty
  have hnds := hnames s hs
  obtain ⟨fl, hfl, hperm⟩ := fmtSection_tally_perm s
    (votes.filter (fun v => v.votingSessionId == sid)) hsty hnds
  refine ⟨fl, by rw [hres s hs, hfl], ?_, ?_⟩
  · have hsum : sumVotes fl =
        ((votes.filter (fun v => v.votingSessionId == sid)).map
          (fun vd => ((optionNames s).map (fun n => contrib s n vd)).sum)).sum := by
      have h := sumVotes_fmt_tally s
        (votes.filter (fun v => v.votingSessionId == sid)) hsty hnds
      rw [hfl] at h
      simpa [fmtOptions] using h
    rw [hsum, htot]
    apply sum_le_length_mul
    intro vd hvd
    exact perVote_cap s vd hnds
      (validate_none_each session.sections vd.votes (hval vd hvd) s hs)
  · intro opt hopt hone
    have hcnt := sum_eq_count_pos
      (votes.filter (fun v => v.votingSessionId == sid))
      (fun vd => contrib s opt.name vd) hone
    have hmem : FmtOption.mk opt.name
        (((votes.filter (fun v => v.votingSessionId == sid)).map
          (contrib s opt.name)).sum) opt.imageUrl ∈
        s.options.map (fun opt =>
          FmtOption.mk opt.name
            (((votes.filter (fun v => v.votingSessionId == sid)).map
              (contrib s opt.name)).sum) opt.imageUrl) :=
      List.mem_map.mpr ⟨opt, hopt, rfl⟩
    have hin := hperm.mem_iff.mpr hmem
    rw [hcnt] at hin
    exact hin

/-- C6 witness: the theorem applied to the spec scenario. -/
theorem c6_totals_and_bounds_wit :
    (getResults [specSession] [vote1, vote2] "s1").isOk = true := by
  obtain ⟨resp, hok, -, -⟩ := c6_totals_and_bounds [specSession] [vote1, vote2]
    "s1" specSession (by decide) (by decide) (by decide) (by decide) (by decide)
  rw [hok]
  rfl

/-! ## C7: tally robustness under schema drift -/

/-- C7 counterexample: a stored vote whose text-input answer is an
array — a shape the vote validation accepts, since text answers are
never type-checked — makes the tally throw (`sectionVote.trim` is not a
function), so the request fails with a server error instead of the
mismatched shape being ignored. -/
theorem c7_text_array_crashes :
    getResults [specSession] [crashVote] "s1" = .error () ∧
    validate specSession.sections crashVote.votes = none :=
  ⟨rfl, rfl⟩

/-- C7 amended: provided no stored text-input answer is an array, the
tally never errors, and each select section with distinct option names
outputs exactly its defined options — unknown or stale option names in
stored answers create no entries and contribute to no count; each
displayed count is the total number of occurrences of that known
option's own name. -/
theorem c7_drift_tolerated (sessions : List VotingSession)
    (votes : List VoteDoc) (sid : String) (session : VotingSession)
    (hfind : sessions.find? (fun s => s.id == sid) = some session)
    (hnd : (session.sections.map (·.id)).Nodup)
    (hsafe : ∀ vd ∈ votes.filter (fun v => v.votingSessionId == sid),
      ∀ s ∈ session.sections, textSafe s vd = true) :
    ∃ resp, getResults sessions votes sid = .ok (some resp) ∧
      ∀ s ∈ session.sections, s.ty ≠ .textInput → (optionNames s).Nodup →
        ∃ fl, jsGet resp.results s.id = some (.optRes s.ty s.label fl) ∧
          List.Perm fl (s.options.map (fun opt =>
            FmtOption.mk opt.name
              (((votes.filter (fun v => v.votingSessionId == sid)).map
                (contrib s opt.name)).sum) opt.imageUrl)) := by
  obtain ⟨resp, hok, -, -, -, hres⟩ :=
    getResults_ok sessions votes sid session hfind hnd hsafe
  refine ⟨resp, hok, ?_⟩
  intro s hs hsty hnds
  obtain ⟨fl, hfl, hperm⟩ := fmtSection_tally_perm s
    (votes.filter (fun v => v.votingSessionId == sid)) hsty hnds
  exact ⟨fl, by rw [hres s hs, hfl], hperm⟩

/-- C7 witness: the amended theorem on the spec scenario with an extra
stored vote carrying an unknown option name. -/
theorem c7_drift_tolerated_wit :
    (getResults [specSession] [vote1, vote2, driftVote] "s1").isOk = true := by
  obtain ⟨resp, hok, -⟩ := c7_drift_tolerated [specSession]
    [vote1, vote2, driftVote] "s1" specSession (by decide) (by decide) (by decide)
  rw [hok]
  rfl

end AV
